import Mathlib

/-!
Shallow embedding of the WebRTC room client (App.vue, PCWrap.ts, Device.ts,
ProtooClientWrap.ts): the room-membership table, the receive-side
peer-connection wrapper with its reserved slots, the pull (subscribe)
track-collection listener, the mute controls and the notification handlers,
together with theorems checking the specification's claims about them.
-/

set_option linter.unusedVariables false

namespace WebrtcClient

/-- Media kind of a track or transceiver, the value of `av_type`. -/
inductive MediaKind where
  | audio
  | video
deriving DecidableEq, Repr

/-- Direction of a peer-connection wrapper, `PCDirection` in PCWrap.ts. -/
inductive PCDirection where
  | sendonly
  | recvonly
  | sendrecv
deriving DecidableEq, Repr

/-- Errors raised by the peer-connection wrapper paths we model. -/
inductive PCError where
  | noTransceivers
  | openInRecvonly
  | deviceDenied
  | transport
deriving DecidableEq, Repr

/-- JavaScript value that can appear as a `userId` in a server payload:
either a string or a non-negative number (other shapes do not occur in the
protocol). -/
inductive JSVal where
  | str (s : String)
  | num (n : Nat)
deriving DecidableEq, Repr

/-- JavaScript conversion `String(id)` for the payload values we model. -/
def jsToString : JSVal → String
  | .str s => s
  | .num n => toString n

/-- JavaScript `String.prototype.trim`: drop leading and trailing
whitespace.  Modelled structurally over the character list so that it
evaluates by kernel reduction. -/
def jsTrim (s : String) : String :=
  ⟨((s.data.dropWhile Char.isWhitespace).reverse.dropWhile Char.isWhitespace).reverse⟩

/-- Function `normalizeId` from App.vue: `String(id).trim().normalize('NFC')`.
The Unicode NFC step is the parameter `nfc`; on the ASCII identifiers used
in the concrete instances below NFC is the identity, and no theorem in this
file depends on what `nfc` does beyond explicitly stated hypotheses. -/
def normalizeId (nfc : String → String) (id : JSVal) : String :=
  nfc (jsTrim (jsToString id))

/-- Normalization as applied to an id that is already stored as a string;
`normalizeId` on a string payload reduces to this. -/
def normKey (nfc : String → String) (s : String) : String :=
  nfc (jsTrim s)

/-- Strict JavaScript equality `stored === payload` between a stored
(string) id and a raw notification payload id: true only when the payload
is a string that is character-for-character equal. -/
def strictEqId (stored : String) (payload : JSVal) : Bool :=
  match payload with
  | .str s => stored == s
  | .num _ => false

/-- Receive transceiver spec, `RecvTransceiverSpec` in PCWrap.ts. -/
structure RecvSpec where
  type : MediaKind
  pusher_id : String
deriving DecidableEq, Repr

/-- Model of a `PCWrap` instance.  `gen` identifies the underlying
`RTCPeerConnection` (used to correlate track events and `close()`);
`transceivers` lists the kinds of the reserved receive slots in reservation
order; `recvMap` is the `pusher_id → mid` map; `localStream` is the
captured device stream, identified by a numeric handle. -/
structure PCWrapM where
  gen : Nat
  direction : PCDirection
  transceivers : List MediaKind := []
  recvMap : List (String × String) := []
  pcInit : Bool := false
  localStream : Option Nat := none
deriving DecidableEq, Repr

/-- Constructor call `new PCWrap({ direction })`. -/
def newPCWrap (gen : Nat) (d : PCDirection) : PCWrapM :=
  { gen := gen, direction := d }

/-- Body of one iteration of the loop in `PCWrap.addTransceivers`: a
`pusher_id` already present in `recvMap` is skipped, otherwise one recvonly
transceiver is added and the mapping recorded (the mid placeholder is the
empty string, as in the source). -/
def addOneSlot (w : PCWrapM) (spec : RecvSpec) : PCWrapM :=
  if (w.recvMap.map Prod.fst).contains spec.pusher_id then w
  else
    { w with
      transceivers := w.transceivers ++ [spec.type]
      recvMap := w.recvMap ++ [(spec.pusher_id, "")]
      pcInit := true }

/-- Slot-reservation loop of `PCWrap.addTransceivers`; the peer connection
is lazily initialised first. -/
def addRecvSlots (w : PCWrapM) (specs : List RecvSpec) : PCWrapM :=
  specs.foldl addOneSlot { w with pcInit := true }

/-- Method `PCWrap.addTransceivers`: errors unless direction is recvonly. -/
def addTransceivers (w : PCWrapM) (specs : List RecvSpec) :
    Except PCError PCWrapM :=
  if w.direction = .recvonly then .ok (addRecvSlots w specs)
  else .error .transport

/-- Method `PCWrap.createOfferAndEmit`: in recvonly mode it raises unless at
least one transceiver has been reserved; on success the emitted offer
reflects the full reserved slot set. -/
def createOfferAndEmit (w : PCWrapM) :
    Except PCError (List MediaKind × PCWrapM) :=
  if w.direction = .recvonly then
    if w.transceivers = [] then .error .noTransceivers
    else .ok (w.transceivers, { w with pcInit := true })
  else .ok (w.transceivers, { w with pcInit := true })

/-- Method `PCWrap.openDevices`.  The external `getUserMedia` call is the
parameter `grant`: the environment either grants a fresh stream handle or
denies.  Returns the result, the new wrapper state, and whether device
capture was actually invoked. -/
def openDevices (w : PCWrapM) (grant : Except PCError Nat) :
    Except PCError Nat × PCWrapM × Bool :=
  match w.localStream with
  | some s => (.ok s, w, false)
  | none =>
      if w.direction = .recvonly then (.error .openInRecvonly, w, false)
      else
        match grant with
        | .ok st => (.ok st, { w with localStream := some st }, true)
        | .error e => (.error e, w, true)

/-- Model of the `Device` capture wrapper from Device.ts. -/
structure DeviceM where
  stream : Option Nat := none
deriving DecidableEq, Repr

/-- Method `Device.openDevices`: returns the existing stream if one is
already open, otherwise invokes capture. -/
def Device.openDevices (d : DeviceM) (grant : Except PCError Nat) :
    Except PCError Nat × DeviceM × Bool :=
  match d.stream with
  | some s => (.ok s, d, false)
  | none =>
      match grant with
      | .ok st => (.ok st, { stream := some st }, true)
      | .error e => (.error e, d, true)

/-- Session guard at the start of `onOpenDevices`:
`if (!sendPcWarp.value) sendPcWarp.value = new PCWrap({direction:'sendonly'})`. -/
def ensureSendPc (cur : Option PCWrapM) (freshGen : Nat) : PCWrapM :=
  match cur with
  | some w => w
  | none => newPCWrap freshGen .sendonly

/-- A publication (`Pusher`): its identifier plus the `av_type` of its
`rtpParam`; the rest of the RTP parameter bundle is opaque (`param`). -/
structure Pusher where
  pusherId : String
  avType : MediaKind
  param : Nat := 0
deriving DecidableEq, Repr

/-- Server user payload `{ userId, userName, pushers }`. -/
structure UserPayload where
  userId : JSVal
  userName : Option String := none
  pushers : List Pusher := []
deriving DecidableEq, Repr

/-- An inbound media track: kind, enabled flag, and object identity. -/
structure Track where
  kind : MediaKind
  enabled : Bool
  tid : Nat
deriving DecidableEq, Repr

/-- A participant's combined inbound media buffer (`playStream`): object
identity `sid` plus the tracks appended so far. -/
structure PlayStream where
  sid : Nat
  tracks : List Track
deriving DecidableEq, Repr

/-- Connectivity state.  A freshly created user carries no `state` field;
that reads as not-disconnected everywhere, so it is modelled as
`connected`. -/
inductive ConnState where
  | connected
  | disconnected
deriving DecidableEq, Repr

/-- A `RemoteUser` entry of the room-membership table. -/
structure RemoteUser where
  userId : String
  userName : Option String
  pushers : List Pusher
  receivePcWrap : Option PCWrapM := none
  playStream : Option PlayStream := none
  videoMuted : Bool := false
  audioMuted : Bool := false
  state : ConnState := .connected
deriving DecidableEq, Repr

/-- Mapping a pusher list to the receive specs sent to `addTransceivers`
and to `pull` requests. -/
def specsOf (ps : List Pusher) : List RecvSpec :=
  ps.map fun p => { type := p.avType, pusher_id := p.pusherId }

/-- Function `createRemoteUser`: normalize the id, copy the payload, and
when the payload has pushers create the recvonly wrapper (reserving one
slot per pusher), the play stream, and the default mute flags.  `gen` and
`sid` are the fresh identities for the created wrapper and play stream. -/
def createRemoteUser (nfc : String → String) (p : UserPayload)
    (gen sid : Nat) : RemoteUser :=
  let base : RemoteUser :=
    { userId := normalizeId nfc p.userId
      userName := p.userName
      pushers := p.pushers }
  if p.pushers = [] then base
  else
    { base with
      receivePcWrap := some (addRecvSlots (newPCWrap gen .recvonly) (specsOf p.pushers))
      playStream := some { sid := sid, tracks := [] }
      videoMuted := false
      audioMuted := false }

/-- Update applied by `upsertRemoteUser` to an existing entry: name update
via `??`, pusher merge filtered against the pre-merge id set (the set is
not extended while merging, exactly as in the source), transceiver
extension for genuinely new pushers, and lazy wrapper/stream creation when
the entry had no wrapper but now has pushers.  Returns the updated user and
whether a fresh wrapper and stream were created (consuming `gen`, `sid`). -/
def mergeExisting (u : RemoteUser) (p : UserPayload) (gen sid : Nat) :
    RemoteUser × Bool :=
  let oldIds := u.pushers.map Pusher.pusherId
  let fresh := p.pushers.filter fun q => !oldIds.contains q.pusherId
  let merged := u.pushers ++ fresh
  let u2 : RemoteUser :=
    { u with
      userName := match p.userName with
                  | some n => some n
                  | none => u.userName
      pushers := merged }
  match u.receivePcWrap with
  | some w =>
      if p.pushers ≠ [] then
        if specsOf fresh ≠ [] then
          ({ u2 with receivePcWrap := some (addRecvSlots w (specsOf fresh)) }, false)
        else (u2, false)
      else (u2, false)
  | none =>
      if merged ≠ [] then
        ({ u2 with
           receivePcWrap := some (addRecvSlots (newPCWrap gen .recvonly) (specsOf merged))
           playStream := some { sid := sid, tracks := [] } }, true)
      else (u2, false)

/-- List part of `upsertRemoteUser`: find the first entry whose normalized
id equals the normalized payload id and update it, otherwise append a new
entry built by `createRemoteUser`.  Returns the new list and whether a
fresh wrapper and stream were created. -/
def upsertList (nfc : String → String) (p : UserPayload) (gen sid : Nat) :
    List RemoteUser → List RemoteUser × Bool
  | [] => ([createRemoteUser nfc p gen sid], !p.pushers.isEmpty)
  | u :: rest =>
      if normKey nfc u.userId == normalizeId nfc p.userId then
        let (u', created) := mergeExisting u p gen sid
        (u' :: rest, created)
      else
        let (rest', created) := upsertList nfc p gen sid rest
        (u :: rest', created)

/-- Status of one `pullRemoteUser` track-collection promise.  The promise
executor in the source only ever calls `resolve`; the `cancelled` and
`rejected` outcomes exist as possible promise states but no code path
produces them for the track-collection promise. -/
inductive PullStatus where
  | pending
  | resolved
  | cancelled
  | rejected
deriving DecidableEq, Repr

/-- One in-flight `pullRemoteUser` call that has registered its per-call
track listener: bound to peer-connection generation `gen`, expecting
`expected = specs.length` tracks, with the requested slot kinds kept for
reference. -/
structure PullCall where
  gen : Nat
  expected : Nat
  specKinds : List MediaKind
  collected : List Track := []
  status : PullStatus := .pending
deriving DecidableEq, Repr

/-- Orchestrator state: the remote-user table, the in-flight pulls, the
set of closed peer-connection generations, and fresh-identity counters. -/
structure Room where
  users : List RemoteUser := []
  pulls : List PullCall := []
  closedGens : List Nat := []
  nextGen : Nat := 0
  nextSid : Nat := 0
deriving DecidableEq, Repr

/-- Function `upsertRemoteUser` lifted to the room state. -/
def upsertRemoteUser (nfc : String → String) (r : Room) (p : UserPayload) :
    Room :=
  let (users', created) := upsertList nfc p r.nextGen r.nextSid r.users
  { r with
    users := users'
    nextGen := if created then r.nextGen + 1 else r.nextGen
    nextSid := if created then r.nextSid + 1 else r.nextSid }

/-- Shape of `findIndex`-then-update: apply `g` to the first entry
satisfying `f`, leave everything else unchanged. -/
def markFirst (f : RemoteUser → Bool) (g : RemoteUser → RemoteUser) :
    List RemoteUser → List RemoteUser
  | [] => []
  | u :: rest => if f u then g u :: rest else u :: markFirst f g rest

/-- Shape of `findIndex`-then-`splice`: remove the first entry satisfying
`f`. -/
def removeFirstBy (f : RemoteUser → Bool) : List RemoteUser → List RemoteUser
  | [] => []
  | u :: rest => if f u then rest else u :: removeFirstBy f rest

/-- Notification handler for `userDisconnect`: locate by strict equality on
the raw payload id and mark disconnected. -/
def onUserDisconnect (r : Room) (uid : JSVal) : Room :=
  { r with
    users := markFirst (fun u => strictEqId u.userId uid)
      (fun u => { u with state := .disconnected }) r.users }

/-- Notification handler for `userReconnect`: locate by strict equality on
the raw payload id and mark connected. -/
def onUserReconnect (r : Room) (uid : JSVal) : Room :=
  { r with
    users := markFirst (fun u => strictEqId u.userId uid)
      (fun u => { u with state := .connected }) r.users }

/-- Notification handler for `userLeave`: locate by strict equality on the
raw payload id; when found, close the receive peer connection (its
generation joins `closedGens`) and remove the entry from the table. -/
def onUserLeave (r : Room) (uid : JSVal) : Room :=
  match r.users.find? (fun u => strictEqId u.userId uid) with
  | none => r
  | some u =>
      { r with
        users := removeFirstBy (fun u => strictEqId u.userId uid) r.users
        closedGens :=
          match u.receivePcWrap with
          | some w => r.closedGens ++ [w.gen]
          | none => r.closedGens }

/-- Helper `setTrackEnabledForUser`: enable or disable every play-stream
track of the given kind. -/
def setTrackEnabledForUser (u : RemoteUser) (k : MediaKind) (enabled : Bool) :
    RemoteUser :=
  match u.playStream with
  | none => u
  | some ps =>
      { u with
        playStream := some
          { ps with
            tracks := ps.tracks.map fun t =>
              if t.kind = k then { t with enabled := enabled } else t } }

/-- Handler `toggleAudioMute`: flip the flag, then walk the current play
stream applying the new enablement. -/
def toggleAudioMute (u : RemoteUser) : RemoteUser :=
  let m := !u.audioMuted
  setTrackEnabledForUser { u with audioMuted := m } .audio (!m)

/-- Handler `toggleVideoMute`: flip the flag, then walk the current play
stream applying the new enablement. -/
def toggleVideoMute (u : RemoteUser) : RemoteUser :=
  let m := !u.videoMuted
  setTrackEnabledForUser { u with videoMuted := m } .video (!m)

/-- Listener-registration point of `pullRemoteUser`: after the offer, the
`pull` request and the answer all succeed, a per-call track listener is
registered on the target user's receive wrapper, expecting `specs.length`
tracks.  If the user is absent, has no wrapper, or the wrapper has no
reserved slots (in which case the recvonly offer would already have
thrown), no listener is registered. -/
def pullStart (r : Room) (uid : String) (specs : List RecvSpec) : Room :=
  match r.users.find? (fun u => u.userId == uid) with
  | none => r
  | some u =>
      match u.receivePcWrap with
      | none => r
      | some w =>
          if w.transceivers = [] then r
          else
            { r with
              pulls := r.pulls ++
                [{ gen := w.gen
                   expected := specs.length
                   specKinds := specs.map RecvSpec.type }] }

/-- A track as delivered by an `ontrack` event: fresh remote tracks arrive
enabled. -/
def mkTrack (k : MediaKind) (tid : Nat) : Track :=
  { kind := k, enabled := true, tid := tid }

/-- Whether a pull call's listener fires for a track event on `gen`: the
listener is still attached (pending) and bound to that generation. -/
def pullFires (gen : Nat) (p : PullCall) : Bool :=
  p.status == .pending && p.gen == gen

/-- Effect of one track event on one pull call: a firing listener collects
the track; once the count reaches the expected spec count the listener
detaches (`unsubscribe`) and the call resolves.  No kind comparison is
performed. -/
def updatePull (gen : Nat) (t : Track) (p : PullCall) : PullCall :=
  if pullFires gen p then
    let c := p.collected ++ [t]
    if p.expected ≤ c.length then { p with collected := c, status := .resolved }
    else { p with collected := c }
  else p

/-- Tracks appended to the play stream as a consequence of one track
event: the full collected list of every pull call that the event causes to
resolve. -/
def resolvedTracks (pulls : List PullCall) (gen : Nat) (t : Track) :
    List Track :=
  (pulls.filterMap fun p =>
    if pullFires gen p && decide (p.expected ≤ p.collected.length + 1)
    then some (p.collected ++ [t]) else none).flatten

/-- Whether a user's receive wrapper is bound to generation `gen`. -/
def userGenIs (u : RemoteUser) (gen : Nat) : Bool :=
  match u.receivePcWrap with
  | some w => w.gen == gen
  | none => false

/-- Mute adjustment applied by `pullRemoteUser` when appending an arrived
track: a video track is disabled when the user's video is muted at that
moment, an audio track when audio is muted at that moment; otherwise the
track keeps its delivered enabled state. -/
def adjustTrack (u : RemoteUser) (t : Track) : Track :=
  if t.kind = .video ∧ u.videoMuted then { t with enabled := false }
  else if t.kind = .audio ∧ u.audioMuted then { t with enabled := false }
  else t

/-- Append arrived tracks to the user's play stream, applying the user's
current mute flags to each. -/
def appendTracks (u : RemoteUser) (ts : List Track) : RemoteUser :=
  match u.playStream with
  | none => u
  | some ps =>
      { u with
        playStream := some { ps with tracks := ps.tracks ++ ts.map (adjustTrack u) } }

/-- Effect of one `ontrack` event on peer-connection generation `gen`.
The wrapper dispatches the event to every registered listener: every
still-pending pull call on that generation collects the track; a call
whose count reaches its expected spec count detaches its listener,
resolves, and appends its collected tracks to the target user's play
stream under the user's mute flags as they stand now.  A closed peer
connection emits no track events. -/
def deliverTrack (r : Room) (gen : Nat) (k : MediaKind) (tid : Nat) : Room :=
  if r.closedGens.contains gen then r
  else
    let t := mkTrack k tid
    let ts := resolvedTracks r.pulls gen t
    { r with
      pulls := r.pulls.map (updatePull gen t)
      users := r.users.map fun u =>
        if userGenIs u gen then appendTracks u ts else u }

/-- External events consumed by the orchestrator in arrival order. -/
inductive Ev where
  | newUserN (us : List UserPayload)
  | newPusherN (p : UserPayload)
  | disconnectN (uid : JSVal)
  | reconnectN (uid : JSVal)
  | leaveN (uid : JSVal)
  | toggleA (uid : String)
  | toggleV (uid : String)
  | pullStartE (uid : String) (specs : List RecvSpec)
  | trackE (gen : Nat) (k : MediaKind) (tid : Nat)
deriving Repr

/-- Single-threaded reducer: the effect of one event on the room state. -/
def step (nfc : String → String) (r : Room) : Ev → Room
  | .newUserN us => us.foldl (upsertRemoteUser nfc) r
  | .newPusherN p => upsertRemoteUser nfc r p
  | .disconnectN uid => onUserDisconnect r uid
  | .reconnectN uid => onUserReconnect r uid
  | .leaveN uid => onUserLeave r uid
  | .toggleA uid =>
      { r with users := markFirst (fun u => u.userId == uid) toggleAudioMute r.users }
  | .toggleV uid =>
      { r with users := markFirst (fun u => u.userId == uid) toggleVideoMute r.users }
  | .pullStartE uid specs => pullStart r uid specs
  | .trackE gen k tid => deliverTrack r gen k tid

/-- Processing a list of events in delivery order. -/
def steps (nfc : String → String) (r : Room) (l : List Ev) : Room :=
  l.foldl (step nfc) r

/-- Status of the signaling channel as tracked by `wsStatus`. -/
inductive WsStatus where
  | disconnected
  | connected
  | joined
deriving DecidableEq, Repr

/-- Client state relevant to the join flow. -/
structure Client where
  ws : WsStatus := .disconnected
  room : Room := {}
deriving DecidableEq, Repr

/-- Join response payload `{ code, users }`. -/
structure JoinResp where
  code : Int
  users : Option (List UserPayload) := none
deriving Repr

/-- Subscription attempts issued after a join response: one per tabled
user that has publications, carrying the full spec list. -/
def pullSpecs (users : List RemoteUser) : List (String × List RecvSpec) :=
  users.filterMap fun u =>
    if u.pushers.isEmpty then none else some (u.userId, specsOf u.pushers)

/-- Handler `onJoin`, with the environment's outcomes for the channel-open
and the join request as parameters.  Returns the new client state, whether
a failure was surfaced to the caller (the alert-and-return paths), and the
subscription attempts issued after the response.  Mirrors the source:
`wsStatus` is set to `joined` as soon as the request fulfils, before the
response code is inspected; users are upserted only on code 0; the pull
loop runs over the whole table regardless of the code. -/
def onJoin (nfc : String → String) (c : Client)
    (connectR : Except PCError Unit) (joinR : Except PCError JoinResp) :
    Client × Bool × List (String × List RecvSpec) :=
  match connectR with
  | .error _ => (c, true, [])
  | .ok _ =>
      let c1 : Client := { c with ws := .connected }
      match joinR with
      | .error _ => (c1, true, [])
      | .ok resp =>
          let c2 : Client := { c1 with ws := .joined }
          let c3 : Client :=
            if resp.code = 0 then
              match resp.users with
              | some us => { c2 with room := us.foldl (upsertRemoteUser nfc) c2.room }
              | none => c2
            else c2
          (c3, false, pullSpecs c3.room.users)

/-- Normalization key of a stored table entry. -/
def keyOf (nfc : String → String) (v : RemoteUser) : String :=
  normKey nfc v.userId

/-- Mute flag of a user for a given track kind. -/
def mutedFor (u : RemoteUser) : MediaKind → Bool
  | .video => u.videoMuted
  | .audio => u.audioMuted

/-- Structural invariant of one table entry: the receive wrapper and the
play stream exist exactly when the entry has at least one publication
(both are created together, at the moment the first publication appears). -/
abbrev WFUser (u : RemoteUser) : Prop :=
  (u.receivePcWrap.isSome ↔ u.pushers ≠ []) ∧
  (u.playStream.isSome ↔ u.pushers ≠ [])

/-- Structural invariant of the table: normalized ids are pairwise
distinct, every entry is well formed, and every stored id is a fixed point
of normalization (ids are stored in normalized form). -/
abbrev WFRoom (nfc : String → String) (r : Room) : Prop :=
  ((r.users.map (keyOf nfc)).Nodup) ∧
  ∀ u ∈ r.users, WFUser u ∧ keyOf nfc u = u.userId

/-- A payload id is normalization-stable: normalizing its normalized form
changes nothing.  This holds for the real trim-and-NFC pipeline, whose
output contains no further trimmable or decomposed characters. -/
def stablePayloadB (nfc : String → String) (p : UserPayload) : Bool :=
  normKey nfc (normalizeId nfc p.userId) == normalizeId nfc p.userId

/-- Every payload carried by the event is normalization-stable. -/
def stableEvB (nfc : String → String) : Ev → Bool
  | .newUserN us => us.all (stablePayloadB nfc)
  | .newPusherN p => stablePayloadB nfc p
  | _ => true

/-- The event is not a `userLeave` notification. -/
def notLeaveEvB : Ev → Bool
  | .leaveN _ => false
  | _ => true

/-- Evolution order on play-stream slots: a missing stream may become
anything, an existing stream keeps its object identity and its already
appended tracks (by object identity, in order). -/
abbrev PSLe : Option PlayStream → Option PlayStream → Prop
  | none, _ => True
  | some _, none => False
  | some ps, some ps' =>
      ps'.sid = ps.sid ∧ ps.tracks.map Track.tid <+: ps'.tracks.map Track.tid

/-- One table entry evolving into another across a reducer step: same
identity, play stream only extended. -/
abbrev UserEvolves (u u' : RemoteUser) : Prop :=
  u'.userId = u.userId ∧ PSLe u.playStream u'.playStream

/-- Identity normalization function used in all concrete instances; on
their ASCII ids Unicode NFC is the identity. -/
def nfcId : String → String := fun s => s

/-- Concrete video publication used in the instances below. -/
def pusherV1 : Pusher :=
  { pusherId := "p1", avType := .video }

/-- Concrete one-publication user payload. -/
def payloadU1 : UserPayload :=
  { userId := .str "u1", userName := some "Alice", pushers := [pusherV1] }

/-- The table entry created from `payloadU1` with fresh identities 0. -/
def userU1 : RemoteUser :=
  createRemoteUser nfcId payloadU1 0 0

/-- The receive wrapper of `userU1`. -/
def wrapU1 : PCWrapM :=
  addRecvSlots (newPCWrap 0 .recvonly) (specsOf payloadU1.pushers)

/-- Room holding just `userU1`. -/
def roomU1 : Room :=
  upsertRemoteUser nfcId {} payloadU1

/-- Room `roomU1` after a subscribe call has registered its per-call track
listener. -/
def roomU1pull : Room :=
  pullStart roomU1 "u1" (specsOf payloadU1.pushers)

/-- The registered pull call of `roomU1pull`. -/
def pullU1 : PullCall :=
  { gen := 0, expected := 1, specKinds := [.video] }

/-- Payload announcing the same publication identifier twice. -/
def dupPayload : UserPayload :=
  { userId := .str "u1", userName := some "Alice",
    pushers := [{ pusherId := "p1", avType := .audio, param := 0 },
                { pusherId := "p1", avType := .audio, param := 1 }] }

/-- Payload whose id arrives as a number. -/
def payload6725 : UserPayload :=
  { userId := .num 6725, userName := some "Bob" }

/-- Room holding the participant created from the numeric payload; its
stored id is the normalized string "6725". -/
def room6725 : Room :=
  upsertRemoteUser nfcId {} payload6725

/-- Payload whose id is a whitespace variant of the stored "6725". -/
def payload6725ws : UserPayload :=
  { userId := .str " 6725 ", userName := some "Bobby" }

/-- Room `roomU1pull` after the user toggles video mute while the
subscribe call is still awaiting its track. -/
def roomU1pullMuted : Room :=
  step nfcId roomU1pull (.toggleV "u1")

/-- The `userU1` entry after the video-mute toggle. -/
def userU1m : RemoteUser :=
  toggleVideoMute userU1

/-! ### Helper lemmas -/

theorem addOneSlot_len (w : PCWrapM) (s : RecvSpec) :
    w.transceivers.length ≤ (addOneSlot w s).transceivers.length := by
  unfold addOneSlot
  split
  · exact Nat.le_refl _
  · simp

theorem foldl_addOneSlot_len (specs : List RecvSpec) (w : PCWrapM) :
    w.transceivers.length ≤ (specs.foldl addOneSlot w).transceivers.length := by
  induction specs generalizing w with
  | nil => exact Nat.le_refl _
  | cons a l ih => exact Nat.le_trans (addOneSlot_len w a) (ih (addOneSlot w a))

theorem addRecvSlots_cons_ne_nil (gen : Nat) (q : Pusher) (rest : List Pusher) :
    (addRecvSlots (newPCWrap gen .recvonly) (specsOf (q :: rest))).transceivers ≠ [] := by
  have e2 : (addOneSlot { newPCWrap gen .recvonly with pcInit := true }
      { type := q.avType, pusher_id := q.pusherId }).transceivers = [q.avType] := by
    simp [addOneSlot, newPCWrap]
  have h1 : 1 ≤ (addRecvSlots (newPCWrap gen .recvonly)
      (specsOf (q :: rest))).transceivers.length := by
    have e1 : addRecvSlots (newPCWrap gen .recvonly) (specsOf (q :: rest)) =
        (specsOf rest).foldl addOneSlot
          (addOneSlot { newPCWrap gen .recvonly with pcInit := true }
            { type := q.avType, pusher_id := q.pusherId }) := by
      simp [addRecvSlots, specsOf]
    rw [e1]
    calc 1 = (addOneSlot { newPCWrap gen .recvonly with pcInit := true }
          { type := q.avType, pusher_id := q.pusherId }).transceivers.length := by
            rw [e2]; rfl
      _ ≤ _ := foldl_addOneSlot_len _ _
  intro hnil
  rw [hnil] at h1
  simp at h1

theorem createOfferAndEmit_isOk (w : PCWrapM) (h : w.transceivers ≠ []) :
    (createOfferAndEmit w).isOk = true := by
  by_cases hd : w.direction = .recvonly
  · unfold createOfferAndEmit
    rw [if_pos hd, if_neg h]
    rfl
  · unfold createOfferAndEmit
    rw [if_neg hd]
    rfl

theorem markFirst_id (f : RemoteUser → Bool) (g : RemoteUser → RemoteUser)
    (l : List RemoteUser) (h : ∀ u ∈ l, f u = false) : markFirst f g l = l := by
  induction l with
  | nil => rfl
  | cons u rest ih =>
      have hu := h u (List.mem_cons_self u rest)
      simp [markFirst, hu, ih fun v hv => h v (List.mem_cons_of_mem u hv)]

theorem find?_none_of_all_false (f : RemoteUser → Bool)
    (l : List RemoteUser) (h : ∀ u ∈ l, f u = false) :
    l.find? f = none :=
  List.find?_eq_none.mpr fun u hu => by simp [h u hu]

/-! ### Claim theorems -/

/-- C7: within a subscribe call, receive-slot reservation strictly
precedes offer creation: creating an offer on a receive-only capability
set with zero reserved slots raises an error instead of producing an
offer, and the wrapper created for a payload with publications already has
slots reserved at creation, so its offer creation succeeds. -/
theorem offer_requires_reserved_slots
    (w : PCWrapM) (nfc : String → String) (p : UserPayload) (gen sid : Nat)
    (hpush : p.pushers ≠ []) :
    (w.direction = .recvonly → w.transceivers = [] →
      createOfferAndEmit w = .error .noTransceivers) ∧
    (∃ w', (createRemoteUser nfc p gen sid).receivePcWrap = some w' ∧
      w'.transceivers ≠ [] ∧ (createOfferAndEmit w').isOk = true) := by
  constructor
  · intro hd ht
    simp [createOfferAndEmit, hd, ht]
  · cases hp : p.pushers with
    | nil => exact absurd hp hpush
    | cons q rest =>
        have hne : (addRecvSlots (newPCWrap gen .recvonly)
            (specsOf p.pushers)).transceivers ≠ [] := by
          rw [hp]; exact addRecvSlots_cons_ne_nil gen q rest
        refine ⟨addRecvSlots (newPCWrap gen .recvonly) (specsOf p.pushers), ?_, hne,
          createOfferAndEmit_isOk _ hne⟩
        simp [createRemoteUser, hp]

/-- C7 witness: concrete slot-less recvonly wrapper errors, and the
wrapper created for the concrete one-publication payload offers
successfully. -/
theorem offer_requires_reserved_slots_witness :
    payloadU1.pushers ≠ [] ∧
    ((newPCWrap 5 .recvonly).direction = .recvonly →
      (newPCWrap 5 .recvonly).transceivers = [] →
      createOfferAndEmit (newPCWrap 5 .recvonly) = .error .noTransceivers) ∧
    (∃ w', (createRemoteUser nfcId payloadU1 0 0).receivePcWrap = some w' ∧
      w'.transceivers ≠ [] ∧ (createOfferAndEmit w').isOk = true) :=
  ⟨by decide,
    (offer_requires_reserved_slots (newPCWrap 5 .recvonly) nfcId payloadU1 0 0 (by decide)).1,
    (offer_requires_reserved_slots (newPCWrap 5 .recvonly) nfcId payloadU1 0 0 (by decide)).2⟩

/-- C8: opening local publish is idempotent for the capture session: with
devices already open, a second call returns the very same capture stream,
invokes no device capture, and the publish-session guard does not recreate
an existing session; the companion `Device` wrapper behaves the same. -/
theorem openDevices_idempotent
    (w : PCWrapM) (s : Nat) (g2 : Except PCError Nat)
    (cur : PCWrapM) (freshGen : Nat) (d : DeviceM) (t : Nat)
    (hnone : w.localStream = none) (hdir : w.direction = .sendonly)
    (hd : d.stream = some t) :
    openDevices w (.ok s) = (.ok s, { w with localStream := some s }, true) ∧
    openDevices { w with localStream := some s } g2 =
      (.ok s, { w with localStream := some s }, false) ∧
    Device.openDevices d g2 = (.ok t, d, false) ∧
    ensureSendPc (some cur) freshGen = cur := by
  refine ⟨?_, ?_, ?_, rfl⟩
  · simp [openDevices, hnone, hdir]
  · simp [openDevices]
  · simp [Device.openDevices, hd]

/-- C8 witness: two consecutive open calls on a fresh sendonly wrapper
yield the same stream handle with no second capture. -/
theorem openDevices_idempotent_witness :
    (newPCWrap 0 .sendonly).localStream = none ∧
    (newPCWrap 0 .sendonly).direction = .sendonly ∧
    ({ stream := some 7 } : DeviceM).stream = some 7 ∧
    (openDevices (newPCWrap 0 .sendonly) (.ok 3) =
        (.ok 3, { newPCWrap 0 .sendonly with localStream := some 3 }, true) ∧
      openDevices { newPCWrap 0 .sendonly with localStream := some 3 } (.ok 9) =
        (.ok 3, { newPCWrap 0 .sendonly with localStream := some 3 }, false) ∧
      Device.openDevices { stream := some 7 } (.ok 9) = (.ok 7, { stream := some 7 }, false) ∧
      ensureSendPc (some (newPCWrap 1 .sendonly)) 4 = newPCWrap 1 .sendonly) :=
  ⟨rfl, rfl, rfl,
    openDevices_idempotent (newPCWrap 0 .sendonly) 3 (.ok 9) (newPCWrap 1 .sendonly) 4
      { stream := some 7 } 7 rfl rfl rfl⟩

/-- C10: the `userDisconnect`, `userReconnect` and `userLeave` handlers
locate their target by strict equality between the raw notification
payload id and the stored id, with no normalization; a notification whose
id is not strictly equal to any stored id (for example a numeric id, or a
whitespace variant that would normalize to a stored id) leaves the room
state entirely unchanged. -/
theorem strict_handlers_no_op (r : Room) (uid : JSVal)
    (h : ∀ u ∈ r.users, strictEqId u.userId uid = false) :
    onUserDisconnect r uid = r ∧ onUserReconnect r uid = r ∧
    onUserLeave r uid = r := by
  refine ⟨?_, ?_, ?_⟩
  · simp [onUserDisconnect, markFirst_id _ _ _ h]
  · simp [onUserReconnect, markFirst_id _ _ _ h]
  · simp [onUserLeave, find?_none_of_all_false _ _ h]

/-- C10 witness: a numeric `userLeave`/`userDisconnect`/`userReconnect`
payload for the stored string id "6725" changes nothing. -/
theorem strict_handlers_no_op_witness :
    (∀ u ∈ room6725.users, strictEqId u.userId (.num 6725) = false) ∧
    (onUserDisconnect room6725 (.num 6725) = room6725 ∧
      onUserReconnect room6725 (.num 6725) = room6725 ∧
      onUserLeave room6725 (.num 6725) = room6725) :=
  ⟨by decide, strict_handlers_no_op room6725 (.num 6725) (by decide)⟩

/-- C6 counterexample: a single upsert whose payload announces the same
publication identifier twice creates a duplicate entry in the
participant's publication list, so identifiers are not unconditionally
unique after every upsert. -/
theorem dup_payload_breaks_uniqueness :
    ((upsertRemoteUser nfcId {} dupPayload).users.map
      fun u => u.pushers.map Pusher.pusherId) = [["p1", "p1"]] ∧
    ¬ (["p1", "p1"] : List String).Nodup :=
  ⟨by decide, by decide⟩

/-- C3 counterexample: the per-call track listener counts every arriving
track without comparing kinds: a subscribe call that reserved one video
slot completes upon arrival of an audio track. -/
theorem track_wait_ignores_kind :
    ((steps nfcId {}
        [.newPusherN payloadU1,
         .pullStartE "u1" (specsOf payloadU1.pushers),
         .trackE 0 .audio 100]).pulls.map
      fun p => (p.status, p.specKinds, p.collected.map Track.kind)) =
    [(.resolved, [.video], [.audio])] := by decide

/-- C5 counterexample: a fulfilled join response with non-zero code is not
surfaced as a failure, and the joined status is still set, contrary to the
claim that any join-request failure surfaces and leaves state unchanged. -/
theorem join_nonzero_code_silent :
    onJoin nfcId {} (.ok ()) (.ok { code := 1 }) = ({ ws := .joined }, false, []) ∧
    ¬ (({ ws := .joined } : Client).ws = ({} : Client).ws) :=
  ⟨by decide, by decide⟩

/-- C1 counterexample: after `userLeave` removes the participant, the
still-pending subscribe wait for it is neither cancelled nor rejected: the
track-collection promise simply remains pending. -/
theorem leave_pull_stays_pending :
    ((steps nfcId {}
        [.newPusherN payloadU1,
         .pullStartE "u1" (specsOf payloadU1.pushers),
         .leaveN (.str "u1")]).pulls.map PullCall.status) = [.pending] ∧
    (PullStatus.pending ≠ .cancelled ∧ PullStatus.pending ≠ .rejected ∧
      PullStatus.pending ≠ .resolved) :=
  ⟨by decide, by decide⟩

theorem map_id_of {α : Type} (f : α → α) (l : List α) (h : ∀ a ∈ l, f a = a) :
    l.map f = l := by
  induction l with
  | nil => rfl
  | cons a rest ih =>
      rw [List.map_cons, h a (List.mem_cons_self a rest),
        ih fun b hb => h b (List.mem_cons_of_mem a hb)]

/-- C3 (amended): the per-call track wait completes exactly when the count
of arrived tracks reaches the requested spec count — any track arriving on
the session counts, with no per-slot or kind matching — and once resolved
the detached listener ignores every later track for that call. -/
theorem track_wait_count_semantics
    (r : Room) (gen : Nat) (k : MediaKind) (tid : Nat) (i : Nat) (p : PullCall)
    (hopen : r.closedGens.contains gen = false)
    (hp : r.pulls[i]? = some p) :
    (p.status = .pending → p.gen = gen →
      (deliverTrack r gen k tid).pulls[i]? = some
        { p with
          collected := p.collected ++ [mkTrack k tid]
          status := if p.expected ≤ p.collected.length + 1 then .resolved else .pending }) ∧
    (p.status = .resolved → (deliverTrack r gen k tid).pulls[i]? = some p) := by
  have hopen' : gen ∉ r.closedGens := by simpa using hopen
  have ht : (deliverTrack r gen k tid).pulls = r.pulls.map (updatePull gen (mkTrack k tid)) := by
    unfold deliverTrack
    simp [hopen']
  constructor
  · intro hst hgen
    rw [ht, List.getElem?_map, hp]
    have hf : pullFires gen p = true := by simp [pullFires, hst, hgen]
    by_cases hc : p.expected ≤ p.collected.length + 1
    · simp [updatePull, hf, hc, hst]
    · simp [updatePull, hf, hc, hst]
  · intro hst
    rw [ht, List.getElem?_map, hp]
    have hf : pullFires gen p = false := by simp [pullFires, hst]
    simp [updatePull, hf]

/-- C3 witness: the concrete one-slot pull resolves on the first track. -/
theorem track_wait_count_semantics_witness :
    roomU1pull.closedGens.contains 0 = false ∧
    roomU1pull.pulls[0]? = some pullU1 ∧
    (deliverTrack roomU1pull 0 .video 5).pulls[0]? = some
      { pullU1 with
        collected := pullU1.collected ++ [mkTrack .video 5]
        status := if pullU1.expected ≤ pullU1.collected.length + 1 then .resolved
                  else .pending } :=
  ⟨by decide, by decide,
    (track_wait_count_semantics roomU1pull 0 .video 5 0 pullU1 (by decide) (by decide)).1
      rfl rfl⟩

theorem adjustTrack_spec (u : RemoteUser) (t : Track) (h : t.enabled = true) :
    (adjustTrack u t).enabled = !(mutedFor u t.kind) ∧
    (adjustTrack u t).kind = t.kind := by
  cases hk : t.kind <;> cases hv : u.videoMuted <;> cases ha : u.audioMuted <;>
    simp [adjustTrack, mutedFor, hk, hv, ha, h]

theorem resolvedTracks_enabled (pulls : List PullCall) (gen : Nat) (k : MediaKind)
    (tid : Nat) (hcoll : ∀ p ∈ pulls, ∀ t ∈ p.collected, t.enabled = true) :
    ∀ t ∈ resolvedTracks pulls gen (mkTrack k tid), t.enabled = true := by
  intro t ht
  unfold resolvedTracks at ht
  rw [List.mem_flatten] at ht
  obtain ⟨l, hl, htl⟩ := ht
  rw [List.mem_filterMap] at hl
  obtain ⟨p, hp, hpl⟩ := hl
  by_cases hc : (pullFires gen p && decide (p.expected ≤ p.collected.length + 1)) = true
  · rw [if_pos hc] at hpl
    injection hpl with hpl
    subst hpl
    rcases List.mem_append.mp htl with h' | h'
    · exact hcoll p hp t h'
    · rw [List.mem_singleton.mp h']
      rfl
  · rw [if_neg hc] at hpl
    cases hpl

/-- C4: every track appended to a participant's inbound media buffer by a
resolving subscribe call is enabled exactly when the participant's mute
flag for the track's kind — as it stands at the moment of appending, not
at request time — is off. -/
theorem track_append_uses_current_mute
    (r : Room) (gen : Nat) (k : MediaKind) (tid : Nat)
    (pre post : List RemoteUser) (u : RemoteUser) (ps : PlayStream)
    (husers : r.users = pre ++ u :: post)
    (hgen : userGenIs u gen = true)
    (hpre : ∀ v ∈ pre, userGenIs v gen = false)
    (hpost : ∀ v ∈ post, userGenIs v gen = false)
    (hps : u.playStream = some ps)
    (hopen : r.closedGens.contains gen = false)
    (hcoll : ∀ p ∈ r.pulls, ∀ t ∈ p.collected, t.enabled = true) :
    ∃ newts : List Track,
      (deliverTrack r gen k tid).users =
        pre ++ { u with playStream := some { ps with tracks := ps.tracks ++ newts } } :: post ∧
      ∀ t ∈ newts, t.enabled = !(mutedFor u t.kind) := by
  refine ⟨(resolvedTracks r.pulls gen (mkTrack k tid)).map (adjustTrack u), ?_, ?_⟩
  · have husers' : (deliverTrack r gen k tid).users =
        r.users.map fun v =>
          if userGenIs v gen then
            appendTracks v (resolvedTracks r.pulls gen (mkTrack k tid))
          else v := by
      have hopen' : gen ∉ r.closedGens := by simpa using hopen
      unfold deliverTrack
      simp [hopen']
    rw [husers', husers, List.map_append, List.map_cons,
      map_id_of _ pre (fun v hv => by simp [hpre v hv]),
      map_id_of _ post (fun v hv => by simp [hpost v hv]),
      if_pos hgen]
    simp [appendTracks, hps]
  · intro t ht
    rw [List.mem_map] at ht
    obtain ⟨t0, ht0, rfl⟩ := ht
    have he := resolvedTracks_enabled r.pulls gen k tid hcoll t0 ht0
    have hs := adjustTrack_spec u t0 he
    rw [hs.2]
    exact hs.1

/-- C4 witness: video mute is toggled after the pull registered its
listener; the track that then arrives is appended disabled. -/
theorem track_append_uses_current_mute_witness :
    (roomU1pullMuted.users = [] ++ userU1m :: [] ∧
      userGenIs userU1m 0 = true ∧
      userU1m.playStream = some { sid := 0, tracks := [] } ∧
      userU1m.videoMuted = true ∧
      roomU1pullMuted.closedGens.contains 0 = false) ∧
    ∃ newts : List Track,
      (deliverTrack roomU1pullMuted 0 .video 5).users =
        [] ++ { userU1m with
          playStream := some { sid := 0, tracks := ([] : List Track) ++ newts } } :: [] ∧
      ∀ t ∈ newts, t.enabled = !(mutedFor userU1m t.kind) :=
  ⟨⟨by decide, by decide, by decide, by decide, by decide⟩,
    track_append_uses_current_mute roomU1pullMuted 0 .video 5 [] [] userU1m
      { sid := 0, tracks := [] } (by decide) (by decide) (by decide) (by decide)
      (by decide) (by decide) (by decide)⟩

/-- C5 (amended): a channel-open failure or a rejected join request
surfaces as a join failure and leaves the membership table, the sessions
and the joined status unchanged; a fulfilled response, however, sets the
joined status regardless of its code, surfaces no failure on a non-zero
code (the table is merely left un-upserted), and issues subscription
attempts for every tabled user with publications; only on code 0 with a
user list are the response users upserted. -/
theorem join_failure_no_partial_state
    (nfc : String → String) (c : Client) (err : PCError)
    (jr : Except PCError JoinResp) (resp : JoinResp) :
    (onJoin nfc c (.error err) jr = (c, true, [])) ∧
    (onJoin nfc c (.ok ()) (.error err) = ({ c with ws := .connected }, true, [])) ∧
    (resp.code ≠ 0 →
      onJoin nfc c (.ok ()) (.ok resp) =
        ({ c with ws := .joined }, false, pullSpecs c.room.users)) ∧
    (∀ us, resp.code = 0 → resp.users = some us →
      onJoin nfc c (.ok ()) (.ok resp) =
        ({ c with ws := .joined, room := us.foldl (upsertRemoteUser nfc) c.room },
          false, pullSpecs (us.foldl (upsertRemoteUser nfc) c.room).users)) := by
  refine ⟨rfl, rfl, ?_, ?_⟩
  · intro hc
    simp [onJoin, hc]
  · intro us hc hus
    simp [onJoin, hc, hus]

/-- C5 witness: transport failures leave the table (holding one user)
untouched and surface; a code-2 response silently joins. -/
theorem join_failure_no_partial_state_witness :
    (({ code := 2 } : JoinResp).code ≠ 0) ∧
    onJoin nfcId { ws := .disconnected, room := roomU1 } (.error .transport)
        (.ok { code := 2 }) =
      ({ ws := .disconnected, room := roomU1 }, true, []) ∧
    onJoin nfcId { ws := .disconnected, room := roomU1 } (.ok ()) (.error .transport) =
      ({ ws := .connected, room := roomU1 }, true, []) ∧
    onJoin nfcId { ws := .disconnected, room := roomU1 } (.ok ()) (.ok { code := 2 }) =
      ({ ws := .joined, room := roomU1 }, false, pullSpecs roomU1.users) :=
  ⟨by decide,
    (join_failure_no_partial_state nfcId { ws := .disconnected, room := roomU1 }
      .transport (.ok { code := 2 }) { code := 2 }).1,
    (join_failure_no_partial_state nfcId { ws := .disconnected, room := roomU1 }
      .transport (.ok { code := 2 }) { code := 2 }).2.1,
    (join_failure_no_partial_state nfcId { ws := .disconnected, room := roomU1 }
      .transport (.ok { code := 2 }) { code := 2 }).2.2.1 (by decide)⟩

theorem specsOf_map_id (l : List Pusher) :
    (specsOf l).map RecvSpec.pusher_id = l.map Pusher.pusherId := by
  induction l <;> simp_all [specsOf]

theorem specsOf_map_type (l : List Pusher) :
    (specsOf l).map RecvSpec.type = l.map Pusher.avType := by
  induction l <;> simp_all [specsOf]

theorem foldl_addOneSlot_new (specs : List RecvSpec) (w : PCWrapM)
    (hnd : (specs.map RecvSpec.pusher_id).Nodup)
    (hdisj : ∀ sp ∈ specs, sp.pusher_id ∉ w.recvMap.map Prod.fst) :
    (specs.foldl addOneSlot w).transceivers = w.transceivers ++ specs.map RecvSpec.type ∧
    (specs.foldl addOneSlot w).recvMap.map Prod.fst =
      w.recvMap.map Prod.fst ++ specs.map RecvSpec.pusher_id := by
  induction specs generalizing w with
  | nil => simp
  | cons sp rest ih =>
      have hsp : sp.pusher_id ∉ w.recvMap.map Prod.fst :=
        hdisj sp (List.mem_cons_self sp rest)
      have hstep : addOneSlot w sp =
          { w with
            transceivers := w.transceivers ++ [sp.type]
            recvMap := w.recvMap ++ [(sp.pusher_id, "")]
            pcInit := true } := by
        unfold addOneSlot
        rw [if_neg (by simpa [List.contains] using hsp)]
      have hnd0 : sp.pusher_id ∉ rest.map RecvSpec.pusher_id ∧
          (rest.map RecvSpec.pusher_id).Nodup := by
        rw [List.map_cons, List.nodup_cons] at hnd
        exact hnd
      have hdisj' : ∀ sp' ∈ rest, sp'.pusher_id ∉
          (w.recvMap ++ [(sp.pusher_id, "")]).map Prod.fst := by
        intro sp' hsp'
        rw [List.map_append, List.mem_append]
        rintro (h | h)
        · exact hdisj sp' (List.mem_cons_of_mem sp hsp') h
        · have he : sp'.pusher_id = sp.pusher_id := by simpa using h
          exact hnd0.1 (he ▸ List.mem_map_of_mem RecvSpec.pusher_id hsp')
      rw [List.foldl_cons, hstep]
      obtain ⟨h1, h2⟩ := ih
        { w with
          transceivers := w.transceivers ++ [sp.type]
          recvMap := w.recvMap ++ [(sp.pusher_id, "")]
          pcInit := true } hnd0.2 hdisj'
      refine ⟨?_, ?_⟩
      · rw [h1]
        simp
      · rw [h2]
        simp

/-- C6 (amended): provided the incoming payload lists pairwise-distinct
publication identifiers, merging a `newPusher` (or `newUser`) payload into
an existing participant keeps identifiers unique: every already-known
identifier is skipped entirely (the stored publication, parameter bundle
included, is untouched), and exactly the genuinely new identifiers are
appended and reserve new receive slots on the subscription session. -/
theorem pusher_merge_no_dup
    (u : RemoteUser) (p : UserPayload) (gen sid : Nat) (w : PCWrapM)
    (hw : u.receivePcWrap = some w)
    (hnp : (p.pushers.map Pusher.pusherId).Nodup)
    (hnu : (u.pushers.map Pusher.pusherId).Nodup)
    (hsync : w.recvMap.map Prod.fst = u.pushers.map Pusher.pusherId) :
    (mergeExisting u p gen sid).1.pushers = u.pushers ++
      (p.pushers.filter fun q => !(u.pushers.map Pusher.pusherId).contains q.pusherId) ∧
    ((mergeExisting u p gen sid).1.pushers.map Pusher.pusherId).Nodup ∧
    ∃ w', (mergeExisting u p gen sid).1.receivePcWrap = some w' ∧
      w'.transceivers = w.transceivers ++
        ((p.pushers.filter fun q =>
          !(u.pushers.map Pusher.pusherId).contains q.pusherId).map Pusher.avType) ∧
      w'.recvMap.map Prod.fst = u.pushers.map Pusher.pusherId ++
        ((p.pushers.filter fun q =>
          !(u.pushers.map Pusher.pusherId).contains q.pusherId).map Pusher.pusherId) := by
  have hfreshN : (((p.pushers.filter fun q =>
      !(u.pushers.map Pusher.pusherId).contains q.pusherId)).map Pusher.pusherId).Nodup :=
    List.Nodup.sublist (List.Sublist.map _ (List.filter_sublist _)) hnp
  have hfreshD : ∀ q ∈ (p.pushers.filter fun q =>
      !(u.pushers.map Pusher.pusherId).contains q.pusherId),
      q.pusherId ∉ u.pushers.map Pusher.pusherId := by
    intro q hq
    have := (List.mem_filter.mp hq).2
    simpa [List.contains] using this
  have hmergedN : ((u.pushers ++ (p.pushers.filter fun q =>
      !(u.pushers.map Pusher.pusherId).contains q.pusherId)).map Pusher.pusherId).Nodup := by
    rw [List.map_append]
    refine List.Nodup.append hnu hfreshN ?_
    intro x hx hx'
    rw [List.mem_map] at hx'
    obtain ⟨q, hq, rfl⟩ := hx'
    exact hfreshD q hq hx
  simp only [mergeExisting, hw]
  by_cases hpp : p.pushers = []
  · rw [if_neg (by simp [hpp])]
    refine ⟨rfl, hmergedN, w, rfl, ?_, ?_⟩
    · rw [hpp]
      simp
    · rw [hpp, hsync]
      simp
  · rw [if_pos hpp]
    by_cases hfr : (p.pushers.filter fun q =>
        !(u.pushers.map Pusher.pusherId).contains q.pusherId) = []
    · have hsf : specsOf (p.pushers.filter fun q =>
          !(u.pushers.map Pusher.pusherId).contains q.pusherId) = [] := by
        rw [hfr]
        rfl
      rw [if_neg (not_not_intro hsf)]
      refine ⟨rfl, hmergedN, w, rfl, ?_, ?_⟩
      · rw [hfr]
        simp
      · rw [hfr, hsync]
        simp
    · rw [if_pos (by
        intro hc
        exact hfr (by simpa [specsOf] using hc))]
      obtain ⟨h1, h2⟩ := foldl_addOneSlot_new
        (specsOf (p.pushers.filter fun q =>
          !(u.pushers.map Pusher.pusherId).contains q.pusherId))
        { w with pcInit := true }
        (by rw [specsOf_map_id]; exact hfreshN)
        (by
          intro sp hsp
          simp only [specsOf, List.mem_map] at hsp
          obtain ⟨q, hq, rfl⟩ := hsp
          have hnin : q.pusherId ∉ u.pushers.map Pusher.pusherId := hfreshD q hq
          simpa [hsync] using hnin)
      refine ⟨rfl, hmergedN, _, rfl, ?_, ?_⟩
      · unfold addRecvSlots
        rw [h1, specsOf_map_type]
      · unfold addRecvSlots
        rw [h2, specsOf_map_id]
        have : ({ w with pcInit := true } : PCWrapM).recvMap = w.recvMap := rfl
        rw [this, hsync]

/-- C6 witness: merging a payload that re-announces "p1" and adds "p2"
leaves "p1" untouched, appends only "p2", and reserves one new slot. -/
theorem pusher_merge_no_dup_witness :
    userU1.receivePcWrap = some wrapU1 ∧
    ((mergeExisting userU1
        { userId := .str "u1",
          pushers := [{ pusherId := "p1", avType := .video, param := 9 },
                      { pusherId := "p2", avType := .audio, param := 0 }] }
        3 3).1.pushers = userU1.pushers ++
      ([{ pusherId := "p1", avType := .video, param := 9 },
        { pusherId := "p2", avType := .audio, param := 0 }].filter fun q =>
          !(userU1.pushers.map Pusher.pusherId).contains q.pusherId) ∧
    (((mergeExisting userU1
        { userId := .str "u1",
          pushers := [{ pusherId := "p1", avType := .video, param := 9 },
                      { pusherId := "p2", avType := .audio, param := 0 }] }
        3 3).1.pushers.map Pusher.pusherId).Nodup) ∧
    ∃ w', (mergeExisting userU1
        { userId := .str "u1",
          pushers := [{ pusherId := "p1", avType := .video, param := 9 },
                      { pusherId := "p2", avType := .audio, param := 0 }] }
        3 3).1.receivePcWrap = some w' ∧
      w'.transceivers = wrapU1.transceivers ++
        (([{ pusherId := "p1", avType := .video, param := 9 },
           { pusherId := "p2", avType := .audio, param := 0 }].filter fun q =>
            !(userU1.pushers.map Pusher.pusherId).contains q.pusherId).map Pusher.avType) ∧
      w'.recvMap.map Prod.fst = userU1.pushers.map Pusher.pusherId ++
        (([{ pusherId := "p1", avType := .video, param := 9 },
           { pusherId := "p2", avType := .audio, param := 0 }].filter fun q =>
            !(userU1.pushers.map Pusher.pusherId).contains q.pusherId).map Pusher.pusherId)) :=
  ⟨by decide,
    pusher_merge_no_dup userU1
      { userId := .str "u1",
        pushers := [{ pusherId := "p1", avType := .video, param := 9 },
                    { pusherId := "p2", avType := .audio, param := 0 }] }
      3 3 wrapU1 (by decide) (by decide) (by decide) (by decide)⟩

theorem mergeExisting_userId (u : RemoteUser) (p : UserPayload) (gen sid : Nat) :
    (mergeExisting u p gen sid).1.userId = u.userId := by
  unfold mergeExisting
  dsimp only
  repeat' split
  all_goals rfl

theorem createRemoteUser_userId (nfc : String → String) (p : UserPayload)
    (gen sid : Nat) :
    (createRemoteUser nfc p gen sid).userId = normalizeId nfc p.userId := by
  unfold createRemoteUser
  split <;> rfl

theorem keyOf_merge (nfc : String → String) (u : RemoteUser) (p : UserPayload)
    (gen sid : Nat) :
    keyOf nfc (mergeExisting u p gen sid).1 = keyOf nfc u := by
  unfold keyOf
  rw [mergeExisting_userId]

theorem upsertList_key_map (nfc : String → String) (p : UserPayload) (gen sid : Nat)
    (l : List RemoteUser) :
    (upsertList nfc p gen sid l).1.map (keyOf nfc) =
      if l.any fun u => keyOf nfc u == normalizeId nfc p.userId
      then l.map (keyOf nfc)
      else l.map (keyOf nfc) ++ [keyOf nfc (createRemoteUser nfc p gen sid)] := by
  induction l with
  | nil => simp [upsertList]
  | cons u rest ih =>
      by_cases hm : (normKey nfc u.userId == normalizeId nfc p.userId) = true
      · have hstep : upsertList nfc p gen sid (u :: rest) =
            ((mergeExisting u p gen sid).1 :: rest, (mergeExisting u p gen sid).2) := by
          unfold upsertList
          rw [if_pos hm]
        have hany : ((u :: rest).any fun v => keyOf nfc v == normalizeId nfc p.userId)
            = true := by
          rw [List.any_cons]
          have : (keyOf nfc u == normalizeId nfc p.userId) = true := hm
          rw [this, Bool.true_or]
        rw [hstep, if_pos hany, List.map_cons, List.map_cons, keyOf_merge]
      · have hstep : upsertList nfc p gen sid (u :: rest) =
            (u :: (upsertList nfc p gen sid rest).1,
              (upsertList nfc p gen sid rest).2) := by
          rcases hres : upsertList nfc p gen sid rest with ⟨rest', created⟩
          unfold upsertList
          rw [if_neg (by simpa using hm), hres]
        have hfu : (keyOf nfc u == normalizeId nfc p.userId) = false := by
          simpa [keyOf] using hm
        rw [hstep, List.map_cons, ih, List.any_cons, hfu, Bool.false_or]
        by_cases ha : (rest.any fun v => keyOf nfc v == normalizeId nfc p.userId) = true
        · rw [if_pos ha, if_pos ha, List.map_cons]
        · rw [if_neg ha, if_neg ha, List.map_cons, List.cons_append]

theorem upsert_users_eq (nfc : String → String) (r : Room) (p : UserPayload) :
    (upsertRemoteUser nfc r p).users =
      (upsertList nfc p r.nextGen r.nextSid r.users).1 := by
  unfold upsertRemoteUser
  rcases h : upsertList nfc p r.nextGen r.nextSid r.users with ⟨users', created⟩
  rfl

/-- C2: participant identity is unique under normalized comparison: if the
table's normalized ids are pairwise distinct and the payload id is
normalization-stable, then after an upsert they are still pairwise
distinct, and an upsert whose normalized id matches an existing entry
(numeric form, whitespace variant, or equal string) updates in place and
never adds a second entry. -/
theorem upsert_no_duplicate
    (nfc : String → String) (r : Room) (p : UserPayload)
    (hnd : (r.users.map (keyOf nfc)).Nodup)
    (hstab : stablePayloadB nfc p = true) :
    ((upsertRemoteUser nfc r p).users.map (keyOf nfc)).Nodup ∧
    ((∃ u ∈ r.users, keyOf nfc u = normalizeId nfc p.userId) →
      (upsertRemoteUser nfc r p).users.length = r.users.length) := by
  have hkeynew : keyOf nfc (createRemoteUser nfc p r.nextGen r.nextSid) =
      normalizeId nfc p.userId := by
    unfold keyOf
    rw [createRemoteUser_userId]
    simpa [stablePayloadB, normKey, normalizeId] using hstab
  constructor
  · rw [upsert_users_eq, upsertList_key_map]
    by_cases ha : (r.users.any fun u => keyOf nfc u == normalizeId nfc p.userId) = true
    · rw [if_pos ha]
      exact hnd
    · rw [if_neg ha]
      refine List.Nodup.append hnd (List.nodup_singleton _) ?_
      intro x hx hx'
      rw [List.mem_map] at hx
      obtain ⟨u, hu, rfl⟩ := hx
      have hxk : keyOf nfc u = normalizeId nfc p.userId := by
        have := List.mem_singleton.mp hx'
        rw [this, hkeynew]
      exact ha (List.any_eq_true.mpr ⟨u, hu, by simp [hxk]⟩)
  · rintro ⟨u, hu, hk⟩
    have ha : (r.users.any fun v => keyOf nfc v == normalizeId nfc p.userId) = true :=
      List.any_eq_true.mpr ⟨u, hu, by simp [hk]⟩
    have hmap : (upsertRemoteUser nfc r p).users.map (keyOf nfc) =
        r.users.map (keyOf nfc) := by
      rw [upsert_users_eq, upsertList_key_map, if_pos ha]
    have := congrArg List.length hmap
    simpa using this

/-- C2 witness: a whitespace string variant of an id first seen as a
number updates the single existing entry and creates no duplicate. -/
theorem upsert_no_duplicate_witness :
    (room6725.users.map (keyOf nfcId)).Nodup ∧
    stablePayloadB nfcId payload6725ws = true ∧
    (((upsertRemoteUser nfcId room6725 payload6725ws).users.map (keyOf nfcId)).Nodup ∧
      ((∃ u ∈ room6725.users, keyOf nfcId u = normalizeId nfcId payload6725ws.userId) →
        (upsertRemoteUser nfcId room6725 payload6725ws).users.length =
          room6725.users.length)) ∧
    (upsertRemoteUser nfcId room6725 payload6725ws).users.length = 1 :=
  ⟨by decide, by decide,
    upsert_no_duplicate nfcId room6725 payload6725ws (by decide) (by decide),
    by decide⟩

theorem removeFirstBy_userId_ne (s : String) (l : List RemoteUser)
    (hnd : (l.map RemoteUser.userId).Nodup) :
    ∀ v ∈ removeFirstBy (fun u => strictEqId u.userId (.str s)) l, v.userId ≠ s := by
  induction l with
  | nil => intro v hv; cases hv
  | cons u rest ih =>
      rw [List.map_cons, List.nodup_cons] at hnd
      intro v hv
      by_cases hu : strictEqId u.userId (.str s) = true
      · rw [removeFirstBy, if_pos hu] at hv
        have hus : u.userId = s := by simpa [strictEqId] using hu
        intro hvs
        apply hnd.1
        rw [hus, ← hvs]
        exact List.mem_map_of_mem RemoteUser.userId hv
      · rw [removeFirstBy, if_neg hu] at hv
        rcases List.mem_cons.mp hv with rfl | hv'
        · simpa [strictEqId] using hu
        · exact ih hnd.2 v hv'

theorem find?_strict_eq (s : String) (l : List RemoteUser) (u : RemoteUser)
    (hnd : (l.map RemoteUser.userId).Nodup) (hu : u ∈ l) (hid : u.userId = s) :
    l.find? (fun v => strictEqId v.userId (.str s)) = some u := by
  induction l with
  | nil => cases hu
  | cons v rest ih =>
      rw [List.map_cons, List.nodup_cons] at hnd
      by_cases hv : strictEqId v.userId (.str s) = true
      · have hvs : v.userId = s := by simpa [strictEqId] using hv
        have huv : u = v := by
          rcases List.mem_cons.mp hu with rfl | hu'
          · rfl
          · exact absurd (by
              rw [hvs, ← hid]
              exact List.mem_map_of_mem RemoteUser.userId hu') hnd.1
        simp only [List.find?, hv]
        rw [huv]
      · have hu' : u ∈ rest := by
          rcases List.mem_cons.mp hu with rfl | h
          · exact absurd (by simp [strictEqId, hid]) hv
          · exact h
        have hv' : strictEqId v.userId (.str s) = false := by simpa using hv
        simp only [List.find?, hv']
        exact ih hnd.2 hu'

theorem upsert_frame (nfc : String → String) (r : Room) (p : UserPayload) :
    (upsertRemoteUser nfc r p).pulls = r.pulls ∧
    (upsertRemoteUser nfc r p).closedGens = r.closedGens := by
  unfold upsertRemoteUser
  rcases h : upsertList nfc p r.nextGen r.nextSid r.users with ⟨users', created⟩
  exact ⟨rfl, rfl⟩

theorem foldl_upsert_frame (nfc : String → String) (us : List UserPayload) (r : Room) :
    (us.foldl (upsertRemoteUser nfc) r).pulls = r.pulls ∧
    (us.foldl (upsertRemoteUser nfc) r).closedGens = r.closedGens := by
  induction us generalizing r with
  | nil => exact ⟨rfl, rfl⟩
  | cons q rest ih =>
      rw [List.foldl_cons]
      obtain ⟨h1, h2⟩ := ih (upsertRemoteUser nfc r q)
      obtain ⟨h3, h4⟩ := upsert_frame nfc r q
      exact ⟨h1.trans h3, h2.trans h4⟩

theorem pullStart_frame (r : Room) (uid : String) (specs : List RecvSpec)
    (i : Nat) (pc : PullCall) (hp : r.pulls[i]? = some pc) :
    (pullStart r uid specs).closedGens = r.closedGens ∧
    (pullStart r uid specs).pulls[i]? = some pc := by
  unfold pullStart
  cases hf : r.users.find? (fun u => u.userId == uid) with
  | none => exact ⟨rfl, hp⟩
  | some u =>
      dsimp only
      cases hw : u.receivePcWrap with
      | none => exact ⟨rfl, hp⟩
      | some w =>
          dsimp only
          by_cases ht : w.transceivers = []
          · rw [if_pos ht]
            exact ⟨rfl, hp⟩
          · rw [if_neg ht]
            refine ⟨rfl, ?_⟩
            have hlt : i < r.pulls.length :=
              (List.getElem?_eq_some_iff.mp hp).1
            rw [List.getElem?_append, if_pos hlt]
            exact hp

theorem deliverTrack_frame (r : Room) (gen g : Nat) (k : MediaKind) (tid : Nat)
    (i : Nat) (pc : PullCall) (hg : g ∈ r.closedGens)
    (hp : r.pulls[i]? = some pc) (hgen : pc.gen = g) :
    (deliverTrack r gen k tid).closedGens = r.closedGens ∧
    (deliverTrack r gen k tid).pulls[i]? = some pc := by
  unfold deliverTrack
  by_cases hc : r.closedGens.contains gen = true
  · rw [if_pos hc]
    exact ⟨rfl, hp⟩
  · rw [if_neg hc]
    refine ⟨rfl, ?_⟩
    rw [List.getElem?_map, hp]
    have hgin : gen ∉ r.closedGens := by simpa using hc
    have hne : (pc.gen == gen) = false := by
      rw [hgen]
      exact beq_eq_false_iff_ne.mpr fun he => hgin (he ▸ hg)
    simp [updatePull, pullFires, hne]

theorem step_pull_frame (nfc : String → String) (r : Room) (e : Ev) (g : Nat)
    (i : Nat) (pc : PullCall)
    (hg : g ∈ r.closedGens) (hp : r.pulls[i]? = some pc) (hgen : pc.gen = g) :
    g ∈ (step nfc r e).closedGens ∧ (step nfc r e).pulls[i]? = some pc := by
  cases e with
  | newUserN us =>
      obtain ⟨h1, h2⟩ := foldl_upsert_frame nfc us r
      exact ⟨by rw [step, h2]; exact hg, by rw [step, h1]; exact hp⟩
  | newPusherN p =>
      obtain ⟨h1, h2⟩ := upsert_frame nfc r p
      exact ⟨by rw [step, h2]; exact hg, by rw [step, h1]; exact hp⟩
  | disconnectN uid => exact ⟨hg, hp⟩
  | reconnectN uid => exact ⟨hg, hp⟩
  | leaveN uid =>
      simp only [step, onUserLeave]
      cases hf : r.users.find? (fun u => strictEqId u.userId uid) with
      | none => exact ⟨hg, hp⟩
      | some u =>
          dsimp only
          cases hw : u.receivePcWrap with
          | none => exact ⟨hg, hp⟩
          | some w => exact ⟨List.mem_append_left _ hg, hp⟩
  | toggleA uid => exact ⟨hg, hp⟩
  | toggleV uid => exact ⟨hg, hp⟩
  | pullStartE uid specs =>
      obtain ⟨h1, h2⟩ := pullStart_frame r uid specs i pc hp
      exact ⟨by rw [step, h1]; exact hg, by rw [step]; exact h2⟩
  | trackE gen k tid =>
      obtain ⟨h1, h2⟩ := deliverTrack_frame r gen g k tid i pc hg hp hgen
      exact ⟨by rw [step, h1]; exact hg, by rw [step]; exact h2⟩

theorem steps_pull_frame (nfc : String → String) (r : Room) (l : List Ev) (g : Nat)
    (i : Nat) (pc : PullCall)
    (hg : g ∈ r.closedGens) (hp : r.pulls[i]? = some pc) (hgen : pc.gen = g) :
    g ∈ (steps nfc r l).closedGens ∧ (steps nfc r l).pulls[i]? = some pc := by
  induction l generalizing r with
  | nil => exact ⟨hg, hp⟩
  | cons e rest ih =>
      obtain ⟨hg', hp'⟩ := step_pull_frame nfc r e g i pc hg hp hgen
      exact ih (step nfc r e) hg' hp'

/-- C1 (amended): after a `userLeave` notification whose payload strictly
matches a stored participant, the participant is absent from the table and
its session generation is closed, so every in-flight pull call bound to
that generation is frozen: under any further event sequence its entry is
untouched — a pending track wait never resolves into the discarded
session, though it is never cancelled or rejected either. -/
theorem leave_removes_and_pull_never_resolves
    (nfc : String → String) (r : Room) (s : String) (u : RemoteUser) (w : PCWrapM)
    (hnd : (r.users.map RemoteUser.userId).Nodup)
    (hu : u ∈ r.users) (hid : u.userId = s) (hw : u.receivePcWrap = some w) :
    (∀ v ∈ (onUserLeave r (.str s)).users, v.userId ≠ s) ∧
    w.gen ∈ (onUserLeave r (.str s)).closedGens ∧
    ∀ (l : List Ev) (i : Nat) (pc : PullCall),
      (onUserLeave r (.str s)).pulls[i]? = some pc → pc.gen = w.gen →
      (steps nfc (onUserLeave r (.str s)) l).pulls[i]? = some pc := by
  have hfind := find?_strict_eq s r.users u hnd hu hid
  have hleave : onUserLeave r (.str s) =
      { r with
        users := removeFirstBy (fun v => strictEqId v.userId (.str s)) r.users
        closedGens := r.closedGens ++ [w.gen] } := by
    unfold onUserLeave
    rw [hfind]
    dsimp only
    rw [hw]
  refine ⟨?_, ?_, ?_⟩
  · rw [hleave]
    exact removeFirstBy_userId_ne s r.users hnd
  · rw [hleave]
    exact List.mem_append_right _ (List.mem_singleton_self _)
  · intro l i pc hp hgen
    have hg : w.gen ∈ (onUserLeave r (.str s)).closedGens := by
      rw [hleave]
      exact List.mem_append_right _ (List.mem_singleton_self _)
    exact (steps_pull_frame nfc (onUserLeave r (.str s)) l w.gen i pc hg hp hgen).2

/-- C1 witness: concrete leave of "u1" with its one-slot pull pending; a
subsequent track event leaves the pull entry pending and unchanged. -/
theorem leave_removes_and_pull_never_resolves_witness :
    ((roomU1pull.users.map RemoteUser.userId).Nodup ∧ userU1 ∈ roomU1pull.users ∧
      userU1.userId = "u1" ∧ userU1.receivePcWrap = some wrapU1) ∧
    (∀ v ∈ (onUserLeave roomU1pull (.str "u1")).users, v.userId ≠ "u1") ∧
    (steps nfcId (onUserLeave roomU1pull (.str "u1")) [.trackE 0 .video 5]).pulls[0]? =
      some pullU1 ∧
    pullU1.status = .pending :=
  ⟨⟨by decide, by decide, by decide, by decide⟩,
    (leave_removes_and_pull_never_resolves nfcId roomU1pull "u1" userU1 wrapU1
      (by decide) (by decide) (by decide) (by decide)).1,
    (leave_removes_and_pull_never_resolves nfcId roomU1pull "u1" userU1 wrapU1
      (by decide) (by decide) (by decide) (by decide)).2.2
      [.trackE 0 .video 5] 0 pullU1 (by decide) (by decide),
    by decide⟩

theorem PSLe_refl (a : Option PlayStream) : PSLe a a := by
  cases a with
  | none => trivial
  | some ps => exact ⟨rfl, List.prefix_refl _⟩

theorem PSLe_trans (a b c : Option PlayStream) (h1 : PSLe a b) (h2 : PSLe b c) :
    PSLe a c := by
  cases a with
  | none => trivial
  | some ps =>
      cases b with
      | none => exact False.elim h1
      | some psb =>
          cases c with
          | none => exact False.elim h2
          | some psc => exact ⟨h2.1.trans h1.1, h1.2.trans h2.2⟩

theorem UserEvolves_refl (u : RemoteUser) : UserEvolves u u := ⟨rfl, PSLe_refl _⟩

theorem UserEvolves_trans {a b c : RemoteUser} (h1 : UserEvolves a b)
    (h2 : UserEvolves b c) : UserEvolves a c :=
  ⟨h2.1.trans h1.1, PSLe_trans _ _ _ h1.2 h2.2⟩

theorem WFUser_congr (a b : RemoteUser) (h1 : b.receivePcWrap = a.receivePcWrap)
    (h2 : b.playStream.isSome = a.playStream.isSome) (h3 : b.pushers = a.pushers)
    (hwf : WFUser a) : WFUser b := by
  unfold WFUser at hwf ⊢
  rw [h1, h2, h3]
  exact hwf

theorem createRemoteUser_wf (nfc : String → String) (p : UserPayload)
    (gen sid : Nat) : WFUser (createRemoteUser nfc p gen sid) := by
  unfold WFUser createRemoteUser
  by_cases hp : p.pushers = []
  · rw [if_pos hp]
    simp [hp]
  · rw [if_neg hp]
    simp [hp]

theorem mergeExisting_wrap_some (u : RemoteUser) (p : UserPayload) (gen sid : Nat)
    (w : PCWrapM) (hw : u.receivePcWrap = some w) :
    (mergeExisting u p gen sid).1.playStream = u.playStream ∧
    (mergeExisting u p gen sid).1.receivePcWrap.isSome = true ∧
    (mergeExisting u p gen sid).1.pushers = u.pushers ++
      (p.pushers.filter fun q => !(u.pushers.map Pusher.pusherId).contains q.pusherId) := by
  simp only [mergeExisting, hw]
  repeat' split
  all_goals exact ⟨rfl, rfl, rfl⟩

theorem mergeExisting_wrap_none (u : RemoteUser) (p : UserPayload) (gen sid : Nat)
    (hw : u.receivePcWrap = none) :
    ((mergeExisting u p gen sid).1.playStream = u.playStream ∧
      (mergeExisting u p gen sid).1.receivePcWrap = none ∧
      (mergeExisting u p gen sid).1.pushers = []) ∨
    ((mergeExisting u p gen sid).1.playStream.isSome = true ∧
      (mergeExisting u p gen sid).1.receivePcWrap.isSome = true ∧
      (mergeExisting u p gen sid).1.pushers ≠ []) := by
  simp only [mergeExisting, hw]
  split
  · next h => exact Or.inr ⟨rfl, rfl, h⟩
  · next h => exact Or.inl ⟨rfl, rfl, not_not.mp h⟩

theorem mergeExisting_wf (u : RemoteUser) (p : UserPayload) (gen sid : Nat)
    (hwf : WFUser u) : WFUser (mergeExisting u p gen sid).1 := by
  cases hw : u.receivePcWrap with
  | some w =>
      obtain ⟨h1, h2, h3⟩ := mergeExisting_wrap_some u p gen sid w hw
      have hpne : u.pushers ≠ [] := hwf.1.mp (by rw [hw]; rfl)
      have hpush : (mergeExisting u p gen sid).1.pushers ≠ [] := by
        rw [h3]
        simp [hpne]
      refine ⟨iff_of_true h2 hpush, iff_of_true ?_ hpush⟩
      rw [h1]
      exact hwf.2.mpr hpne
  | none =>
      have hup : u.pushers = [] := by
        by_contra hne
        have hsome := hwf.1.mpr hne
        rw [hw] at hsome
        cases hsome
      have hplay : u.playStream.isSome = false := by
        cases hq : u.playStream with
        | none => rfl
        | some ps =>
            exfalso
            exact hwf.2.mp (by rw [hq]; rfl) hup
      rcases mergeExisting_wrap_none u p gen sid hw with ⟨h1, h2, h3⟩ | ⟨h1, h2, h3⟩
      · refine ⟨?_, ?_⟩
        · rw [h2, h3]
          simp
        · rw [h1, h3, hplay]
          simp
      · exact ⟨iff_of_true h2 h3, iff_of_true h1 h3⟩

theorem mergeExisting_evolves (u : RemoteUser) (p : UserPayload) (gen sid : Nat)
    (hwf : WFUser u) : UserEvolves u (mergeExisting u p gen sid).1 := by
  refine ⟨mergeExisting_userId u p gen sid, ?_⟩
  cases hps : u.playStream with
  | none => trivial
  | some ps =>
      have hne : u.pushers ≠ [] := hwf.2.mp (by rw [hps]; rfl)
      have hwsome : u.receivePcWrap.isSome = true := hwf.1.mpr hne
      cases ho : u.receivePcWrap with
      | none => rw [ho] at hwsome; cases hwsome
      | some w =>
          obtain ⟨h1, _, _⟩ := mergeExisting_wrap_some u p gen sid w ho
          rw [h1, hps]
          exact PSLe_refl _

theorem upsertList_cons_pos (nfc : String → String) (p : UserPayload) (gen sid : Nat)
    (u : RemoteUser) (rest : List RemoteUser)
    (hm : (normKey nfc u.userId == normalizeId nfc p.userId) = true) :
    upsertList nfc p gen sid (u :: rest) =
      ((mergeExisting u p gen sid).1 :: rest, (mergeExisting u p gen sid).2) := by
  unfold upsertList
  rw [if_pos hm]

theorem upsertList_cons_neg (nfc : String → String) (p : UserPayload) (gen sid : Nat)
    (u : RemoteUser) (rest : List RemoteUser)
    (hm : ¬(normKey nfc u.userId == normalizeId nfc p.userId) = true) :
    upsertList nfc p gen sid (u :: rest) =
      (u :: (upsertList nfc p gen sid rest).1, (upsertList nfc p gen sid rest).2) := by
  rcases hres : upsertList nfc p gen sid rest with ⟨rest', created⟩
  unfold upsertList
  rw [if_neg hm, hres]

theorem upsertList_mem (nfc : String → String) (p : UserPayload) (gen sid : Nat)
    (l : List RemoteUser) :
    ∀ v' ∈ (upsertList nfc p gen sid l).1,
      v' ∈ l ∨ (∃ v ∈ l, v' = (mergeExisting v p gen sid).1) ∨
      v' = createRemoteUser nfc p gen sid := by
  induction l with
  | nil =>
      intro v' hv'
      right; right
      simpa [upsertList] using hv'
  | cons u rest ih =>
      intro v' hv'
      by_cases hm : (normKey nfc u.userId == normalizeId nfc p.userId) = true
      · rw [upsertList_cons_pos nfc p gen sid u rest hm] at hv'
        rcases List.mem_cons.mp hv' with rfl | h
        · exact Or.inr (Or.inl ⟨u, List.mem_cons_self u rest, rfl⟩)
        · exact Or.inl (List.mem_cons_of_mem u h)
      · rw [upsertList_cons_neg nfc p gen sid u rest hm] at hv'
        rcases List.mem_cons.mp hv' with rfl | h
        · exact Or.inl (List.mem_cons_self v' rest)
        · rcases ih v' h with h1 | ⟨v, hv, rfl⟩ | rfl
          · exact Or.inl (List.mem_cons_of_mem u h1)
          · exact Or.inr (Or.inl ⟨v, List.mem_cons_of_mem u hv, rfl⟩)
          · exact Or.inr (Or.inr rfl)

theorem upsertList_evolves (nfc : String → String) (p : UserPayload) (gen sid : Nat)
    (l : List RemoteUser) (hwf : ∀ v ∈ l, WFUser v) (u : RemoteUser) (hu : u ∈ l) :
    ∃ u' ∈ (upsertList nfc p gen sid l).1, UserEvolves u u' := by
  induction l with
  | nil => cases hu
  | cons v rest ih =>
      by_cases hm : (normKey nfc v.userId == normalizeId nfc p.userId) = true
      · rw [upsertList_cons_pos nfc p gen sid v rest hm]
        rcases List.mem_cons.mp hu with rfl | hu'
        · exact ⟨(mergeExisting u p gen sid).1, List.mem_cons_self _ _,
            mergeExisting_evolves u p gen sid (hwf u hu)⟩
        · exact ⟨u, List.mem_cons_of_mem _ hu', UserEvolves_refl u⟩
      · rw [upsertList_cons_neg nfc p gen sid v rest hm]
        rcases List.mem_cons.mp hu with rfl | hu'
        · exact ⟨u, List.mem_cons_self _ _, UserEvolves_refl u⟩
        · obtain ⟨u', hu'', he⟩ := ih (fun x hx => hwf x (List.mem_cons_of_mem v hx)) hu'
          exact ⟨u', List.mem_cons_of_mem v hu'', he⟩

theorem upsert_keys_nodup (nfc : String → String) (r : Room) (p : UserPayload)
    (hnd : (r.users.map (keyOf nfc)).Nodup)
    (hstab : stablePayloadB nfc p = true) :
    ((upsertRemoteUser nfc r p).users.map (keyOf nfc)).Nodup := by
  have hkeynew : keyOf nfc (createRemoteUser nfc p r.nextGen r.nextSid) =
      normalizeId nfc p.userId := by
    unfold keyOf
    rw [createRemoteUser_userId]
    simpa [stablePayloadB, normKey, normalizeId] using hstab
  rw [upsert_users_eq, upsertList_key_map]
  by_cases ha : (r.users.any fun u => keyOf nfc u == normalizeId nfc p.userId) = true
  · rw [if_pos ha]
    exact hnd
  · rw [if_neg ha]
    refine List.Nodup.append hnd (List.nodup_singleton _) ?_
    intro x hx hx'
    rw [List.mem_map] at hx
    obtain ⟨u, hu, rfl⟩ := hx
    have hxk : keyOf nfc u = normalizeId nfc p.userId := by
      have := List.mem_singleton.mp hx'
      rw [this, hkeynew]
    exact ha (List.any_eq_true.mpr ⟨u, hu, by simp [hxk]⟩)

theorem upsert_wf (nfc : String → String) (r : Room) (p : UserPayload)
    (hwf : WFRoom nfc r) (hst : stablePayloadB nfc p = true) :
    WFRoom nfc (upsertRemoteUser nfc r p) := by
  refine ⟨upsert_keys_nodup nfc r p hwf.1 hst, ?_⟩
  intro v' hv'
  rw [upsert_users_eq] at hv'
  rcases upsertList_mem nfc p r.nextGen r.nextSid r.users v' hv' with hmem | ⟨v, hv, rfl⟩ | rfl
  · exact hwf.2 v' hmem
  · obtain ⟨hwfv, hstabv⟩ := hwf.2 v hv
    refine ⟨mergeExisting_wf v p _ _ hwfv, ?_⟩
    have hid := mergeExisting_userId v p r.nextGen r.nextSid
    unfold keyOf at hstabv ⊢
    rw [hid]
    exact hstabv
  · refine ⟨createRemoteUser_wf nfc p _ _, ?_⟩
    unfold keyOf
    rw [createRemoteUser_userId]
    simpa [stablePayloadB] using hst

theorem upsert_evolves (nfc : String → String) (r : Room) (p : UserPayload)
    (hwf : WFRoom nfc r) (u : RemoteUser) (hu : u ∈ r.users) :
    ∃ u' ∈ (upsertRemoteUser nfc r p).users, UserEvolves u u' := by
  rw [upsert_users_eq]
  exact upsertList_evolves nfc p r.nextGen r.nextSid r.users
    (fun v hv => (hwf.2 v hv).1) u hu

theorem setTrackEnabled_fields (u : RemoteUser) (k : MediaKind) (b : Bool) :
    (setTrackEnabledForUser u k b).userId = u.userId ∧
    (setTrackEnabledForUser u k b).pushers = u.pushers ∧
    (setTrackEnabledForUser u k b).receivePcWrap = u.receivePcWrap ∧
    (setTrackEnabledForUser u k b).playStream.isSome = u.playStream.isSome ∧
    PSLe u.playStream (setTrackEnabledForUser u k b).playStream := by
  unfold setTrackEnabledForUser
  cases hps : u.playStream with
  | none => exact ⟨rfl, rfl, rfl, by rw [hps], trivial⟩
  | some ps =>
      refine ⟨rfl, rfl, rfl, rfl, rfl, ?_⟩
      rw [List.map_map]
      have he : (Track.tid ∘ fun t => if t.kind = k then { t with enabled := b } else t) =
          Track.tid := by
        funext t
        by_cases ht : t.kind = k <;> simp [Function.comp, ht]
      rw [he]

theorem toggleAudio_facts (v : RemoteUser) :
    (toggleAudioMute v).userId = v.userId ∧ (WFUser v → WFUser (toggleAudioMute v)) ∧
    UserEvolves v (toggleAudioMute v) := by
  obtain ⟨h1, h2, h3, h4, h5⟩ :=
    setTrackEnabled_fields { v with audioMuted := !v.audioMuted } .audio (!(!v.audioMuted))
  exact ⟨h1, fun hwf => WFUser_congr v _ h3 h4 h2 hwf, h1, h5⟩

theorem toggleVideo_facts (v : RemoteUser) :
    (toggleVideoMute v).userId = v.userId ∧ (WFUser v → WFUser (toggleVideoMute v)) ∧
    UserEvolves v (toggleVideoMute v) := by
  obtain ⟨h1, h2, h3, h4, h5⟩ :=
    setTrackEnabled_fields { v with videoMuted := !v.videoMuted } .video (!(!v.videoMuted))
  exact ⟨h1, fun hwf => WFUser_congr v _ h3 h4 h2 hwf, h1, h5⟩

theorem setState_facts (st : ConnState) (v : RemoteUser) :
    (({ v with state := st } : RemoteUser)).userId = v.userId ∧
    (WFUser v → WFUser ({ v with state := st } : RemoteUser)) ∧
    UserEvolves v ({ v with state := st } : RemoteUser) :=
  ⟨rfl, fun hwf => WFUser_congr v _ rfl rfl rfl hwf, rfl, PSLe_refl _⟩

theorem appendTracks_facts (u : RemoteUser) (ts : List Track) :
    (appendTracks u ts).userId = u.userId ∧
    (appendTracks u ts).pushers = u.pushers ∧
    (appendTracks u ts).receivePcWrap = u.receivePcWrap ∧
    (appendTracks u ts).playStream.isSome = u.playStream.isSome ∧
    PSLe u.playStream (appendTracks u ts).playStream := by
  unfold appendTracks
  cases hps : u.playStream with
  | none => exact ⟨rfl, rfl, rfl, by rw [hps], trivial⟩
  | some ps =>
      refine ⟨rfl, rfl, rfl, rfl, rfl, ?_⟩
      rw [List.map_append]
      exact List.prefix_append _ _

theorem markFirst_map_key (nfc : String → String) (f : RemoteUser → Bool)
    (g : RemoteUser → RemoteUser) (l : List RemoteUser)
    (hgid : ∀ v, (g v).userId = v.userId) :
    (markFirst f g l).map (keyOf nfc) = l.map (keyOf nfc) := by
  induction l with
  | nil => rfl
  | cons u rest ih =>
      unfold markFirst
      by_cases hf : f u = true
      · rw [if_pos hf, List.map_cons, List.map_cons]
        congr 1
        unfold keyOf
        rw [hgid]
      · rw [if_neg hf, List.map_cons, List.map_cons, ih]

theorem markFirst_mem (f : RemoteUser → Bool) (g : RemoteUser → RemoteUser)
    (l : List RemoteUser) :
    ∀ v' ∈ markFirst f g l, v' ∈ l ∨ ∃ v ∈ l, v' = g v := by
  induction l with
  | nil => intro v' hv'; cases hv'
  | cons u rest ih =>
      intro v' hv'
      unfold markFirst at hv'
      by_cases hf : f u = true
      · rw [if_pos hf] at hv'
        rcases List.mem_cons.mp hv' with rfl | h
        · exact Or.inr ⟨u, List.mem_cons_self u rest, rfl⟩
        · exact Or.inl (List.mem_cons_of_mem u h)
      · rw [if_neg hf] at hv'
        rcases List.mem_cons.mp hv' with rfl | h
        · exact Or.inl (List.mem_cons_self v' rest)
        · rcases ih v' h with h1 | ⟨v, hv, rfl⟩
          · exact Or.inl (List.mem_cons_of_mem u h1)
          · exact Or.inr ⟨v, List.mem_cons_of_mem u hv, rfl⟩

theorem markFirst_evolve (f : RemoteUser → Bool) (g : RemoteUser → RemoteUser)
    (l : List RemoteUser) (hgev : ∀ v, UserEvolves v (g v)) :
    ∀ u ∈ l, ∃ u' ∈ markFirst f g l, UserEvolves u u' := by
  induction l with
  | nil => intro u hu; cases hu
  | cons v rest ih =>
      intro u hu
      unfold markFirst
      by_cases hf : f v = true
      · rw [if_pos hf]
        rcases List.mem_cons.mp hu with rfl | hu'
        · exact ⟨g u, List.mem_cons_self _ _, hgev u⟩
        · exact ⟨u, List.mem_cons_of_mem _ hu', UserEvolves_refl u⟩
      · rw [if_neg hf]
        rcases List.mem_cons.mp hu with rfl | hu'
        · exact ⟨u, List.mem_cons_self _ _, UserEvolves_refl u⟩
        · obtain ⟨u', h1, h2⟩ := ih u hu'
          exact ⟨u', List.mem_cons_of_mem _ h1, h2⟩

theorem markFirst_preserves (nfc : String → String) (f : RemoteUser → Bool)
    (g : RemoteUser → RemoteUser) (r : Room)
    (hfacts : ∀ v, (g v).userId = v.userId ∧ (WFUser v → WFUser (g v)) ∧
      UserEvolves v (g v))
    (hwf : WFRoom nfc r) :
    WFRoom nfc { r with users := markFirst f g r.users } ∧
    ∀ u ∈ r.users, ∃ u' ∈ markFirst f g r.users, UserEvolves u u' := by
  refine ⟨⟨?_, ?_⟩, markFirst_evolve f g r.users fun v => (hfacts v).2.2⟩
  · rw [markFirst_map_key nfc f g r.users fun v => (hfacts v).1]
    exact hwf.1
  · intro v' hv'
    rcases markFirst_mem f g r.users v' hv' with h | ⟨v, hv, rfl⟩
    · exact hwf.2 v' h
    · obtain ⟨h1, h2⟩ := hwf.2 v hv
      refine ⟨(hfacts v).2.1 h1, ?_⟩
      unfold keyOf at h2 ⊢
      rw [(hfacts v).1]
      exact h2

theorem mapUsers_preserves (nfc : String → String) (h : RemoteUser → RemoteUser)
    (l : List RemoteUser)
    (hid : ∀ v, (h v).userId = v.userId)
    (hwf : ∀ v, WFUser v → WFUser (h v))
    (hev : ∀ v, UserEvolves v (h v)) :
    ((l.map (keyOf nfc)).Nodup → ((l.map h).map (keyOf nfc)).Nodup) ∧
    ((∀ v ∈ l, WFUser v ∧ keyOf nfc v = v.userId) →
      ∀ v' ∈ l.map h, WFUser v' ∧ keyOf nfc v' = v'.userId) ∧
    (∀ u ∈ l, ∃ u' ∈ l.map h, UserEvolves u u') := by
  have hkey : (l.map h).map (keyOf nfc) = l.map (keyOf nfc) := by
    rw [List.map_map]
    apply List.map_congr_left
    intro a _
    show keyOf nfc (h a) = keyOf nfc a
    unfold keyOf
    rw [hid]
  refine ⟨fun hnd => hkey ▸ hnd, ?_, ?_⟩
  · intro hall v' hv'
    rw [List.mem_map] at hv'
    obtain ⟨v, hv, rfl⟩ := hv'
    obtain ⟨h1, h2⟩ := hall v hv
    refine ⟨hwf v h1, ?_⟩
    unfold keyOf at h2 ⊢
    rw [hid]
    exact h2
  · intro u hu
    exact ⟨h u, List.mem_map_of_mem h hu, hev u⟩

theorem pullStart_users (r : Room) (uid : String) (specs : List RecvSpec) :
    (pullStart r uid specs).users = r.users := by
  unfold pullStart
  cases hf : r.users.find? (fun u => u.userId == uid) with
  | none => rfl
  | some u =>
      dsimp only
      cases hw : u.receivePcWrap with
      | none => rfl
      | some w =>
          dsimp only
          by_cases ht : w.transceivers = []
          · rw [if_pos ht]
          · rw [if_neg ht]

theorem foldl_upsert_preserves (nfc : String → String) (us : List UserPayload)
    (r : Room) (hwf : WFRoom nfc r) (hst : us.all (stablePayloadB nfc) = true) :
    WFRoom nfc (us.foldl (upsertRemoteUser nfc) r) ∧
    ∀ u ∈ r.users, ∃ u' ∈ (us.foldl (upsertRemoteUser nfc) r).users, UserEvolves u u' := by
  revert hst
  induction us generalizing r with
  | nil =>
      intro _
      exact ⟨hwf, fun u hu => ⟨u, hu, UserEvolves_refl u⟩⟩
  | cons q rest ih =>
      intro hst
      rw [List.all_cons, Bool.and_eq_true] at hst
      rw [List.foldl_cons]
      have hw1 := upsert_wf nfc r q hwf hst.1
      obtain ⟨hw2, hev2⟩ := ih (upsertRemoteUser nfc r q) hw1 hst.2
      refine ⟨hw2, fun u hu => ?_⟩
      obtain ⟨u1, hu1, he1⟩ := upsert_evolves nfc r q hwf u hu
      obtain ⟨u2, hu2, he2⟩ := hev2 u1 hu1
      exact ⟨u2, hu2, UserEvolves_trans he1 he2⟩

theorem deliverTrack_preserves (nfc : String → String) (r : Room) (gen : Nat)
    (k : MediaKind) (tid : Nat) (hwf : WFRoom nfc r) :
    WFRoom nfc (deliverTrack r gen k tid) ∧
    ∀ u ∈ r.users, ∃ u' ∈ (deliverTrack r gen k tid).users, UserEvolves u u' := by
  unfold deliverTrack
  by_cases hc : r.closedGens.contains gen = true
  · rw [if_pos hc]
    exact ⟨hwf, fun u hu => ⟨u, hu, UserEvolves_refl u⟩⟩
  · rw [if_neg hc]
    have hid : ∀ v : RemoteUser,
        ((if userGenIs v gen then
          appendTracks v (resolvedTracks r.pulls gen (mkTrack k tid)) else v)).userId =
          v.userId := by
      intro v
      by_cases hg : userGenIs v gen = true
      · rw [if_pos hg]
        exact (appendTracks_facts v _).1
      · rw [if_neg hg]
    have hwfu : ∀ v : RemoteUser, WFUser v →
        WFUser (if userGenIs v gen then
          appendTracks v (resolvedTracks r.pulls gen (mkTrack k tid)) else v) := by
      intro v hv
      by_cases hg : userGenIs v gen = true
      · rw [if_pos hg]
        obtain ⟨_, h2, h3, h4, _⟩ := appendTracks_facts v
          (resolvedTracks r.pulls gen (mkTrack k tid))
        exact WFUser_congr v _ h3 h4 h2 hv
      · rw [if_neg hg]
        exact hv
    have hev : ∀ v : RemoteUser, UserEvolves v
        (if userGenIs v gen then
          appendTracks v (resolvedTracks r.pulls gen (mkTrack k tid)) else v) := by
      intro v
      by_cases hg : userGenIs v gen = true
      · rw [if_pos hg]
        exact ⟨(appendTracks_facts v _).1, (appendTracks_facts v _).2.2.2.2⟩
      · rw [if_neg hg]
        exact UserEvolves_refl v
    obtain ⟨hm1, hm2, hm3⟩ := mapUsers_preserves nfc
      (fun v => if userGenIs v gen then
        appendTracks v (resolvedTracks r.pulls gen (mkTrack k tid)) else v)
      r.users hid hwfu hev
    exact ⟨⟨hm1 hwf.1, hm2 hwf.2⟩, hm3⟩

theorem step_preserves (nfc : String → String) (r : Room) (e : Ev)
    (hwf : WFRoom nfc r) (hse : stableEvB nfc e = true) (hnl : notLeaveEvB e = true) :
    WFRoom nfc (step nfc r e) ∧
    ∀ u ∈ r.users, ∃ u' ∈ (step nfc r e).users, UserEvolves u u' := by
  cases e with
  | newUserN us =>
      exact foldl_upsert_preserves nfc us r hwf (by simpa [stableEvB] using hse)
  | newPusherN p =>
      exact ⟨upsert_wf nfc r p hwf (by simpa [stableEvB] using hse),
        fun u hu => upsert_evolves nfc r p hwf u hu⟩
  | disconnectN uid =>
      exact markFirst_preserves nfc _ _ r (setState_facts .disconnected) hwf
  | reconnectN uid =>
      exact markFirst_preserves nfc _ _ r (setState_facts .connected) hwf
  | leaveN uid => exact Bool.noConfusion hnl
  | toggleA uid =>
      exact markFirst_preserves nfc _ toggleAudioMute r toggleAudio_facts hwf
  | toggleV uid =>
      exact markFirst_preserves nfc _ toggleVideoMute r toggleVideo_facts hwf
  | pullStartE uid specs =>
      have hu := pullStart_users r uid specs
      refine ⟨⟨?_, ?_⟩, ?_⟩
      · rw [step, hu]
        exact hwf.1
      · rw [step, hu]
        exact hwf.2
      · intro u hu'
        refine ⟨u, ?_, UserEvolves_refl u⟩
        rw [step, hu]
        exact hu'
  | trackE gen k tid => exact deliverTrack_preserves nfc r gen k tid hwf

theorem steps_preserves (nfc : String → String) (l : List Ev) (r : Room)
    (hwf : WFRoom nfc r)
    (hst : l.all (stableEvB nfc) = true) (hnl : l.all notLeaveEvB = true) :
    WFRoom nfc (steps nfc r l) ∧
    ∀ u ∈ r.users, ∃ u' ∈ (steps nfc r l).users, UserEvolves u u' := by
  revert hst hnl
  induction l generalizing r with
  | nil =>
      intro _ _
      exact ⟨hwf, fun u hu => ⟨u, hu, UserEvolves_refl u⟩⟩
  | cons e rest ih =>
      intro hst hnl
      rw [List.all_cons, Bool.and_eq_true] at hst hnl
      obtain ⟨hw1, hev1⟩ := step_preserves nfc r e hwf hst.1 hnl.1
      obtain ⟨hw2, hev2⟩ := ih (step nfc r e) hw1 hst.2 hnl.2
      refine ⟨hw2, fun u hu => ?_⟩
      obtain ⟨u1, hu1, he1⟩ := hev1 u hu
      obtain ⟨u2, hu2, he2⟩ := hev2 u1 hu1
      exact ⟨u2, hu2, UserEvolves_trans he1 he2⟩

/-- C9: a participant's inbound media buffer is created at most once — it
exists exactly while the participant has at least one publication (part of
the preserved invariant) — and from the moment it exists it is never
replaced: across any sequence of reducer events (leaves excepted, which
end the participant's lifetime in the table; payload ids
normalization-stable), the entry with the participant's id still holds the
same buffer object, with the previously appended tracks an ordered
prefix of its tracks. -/
theorem playStream_created_once_never_replaced
    (nfc : String → String) (r : Room) (l : List Ev) (u : RemoteUser) (ps : PlayStream)
    (hwf : WFRoom nfc r)
    (hst : l.all (stableEvB nfc) = true) (hnl : l.all notLeaveEvB = true)
    (hu : u ∈ r.users) (hps : u.playStream = some ps) :
    WFRoom nfc (steps nfc r l) ∧
    ∀ u' ∈ (steps nfc r l).users, u'.userId = u.userId →
      ∃ ps', u'.playStream = some ps' ∧ ps'.sid = ps.sid ∧
        ps.tracks.map Track.tid <+: ps'.tracks.map Track.tid := by
  obtain ⟨hwfF, hev⟩ := steps_preserves nfc l r hwf hst hnl
  obtain ⟨u₁, hu₁, he⟩ := hev u hu
  refine ⟨hwfF, ?_⟩
  intro u' hu' hid
  have hraw : ((steps nfc r l).users.map RemoteUser.userId).Nodup := by
    have hkeys := hwfF.1
    have heq : (steps nfc r l).users.map (keyOf nfc) =
        (steps nfc r l).users.map RemoteUser.userId :=
      List.map_congr_left fun v hv => (hwfF.2 v hv).2
    rwa [heq] at hkeys
  have huu : u' = u₁ := by
    apply List.inj_on_of_nodup_map hraw hu' hu₁
    rw [hid, he.1]
  subst huu
  have hpsle := he.2
  rw [hps] at hpsle
  cases hq : u'.playStream with
  | none =>
      rw [hq] at hpsle
      exact False.elim hpsle
  | some ps' =>
      rw [hq] at hpsle
      exact ⟨ps', rfl, hpsle.1, hpsle.2⟩

/-- C9 witness: in the concrete room, the arrival of the awaited track
appends to the same buffer object (sid 0), never replacing it. -/
theorem playStream_created_once_never_replaced_witness :
    (WFRoom nfcId roomU1pull ∧
      ([Ev.trackE 0 .video 5].all (stableEvB nfcId) = true) ∧
      ([Ev.trackE 0 .video 5].all notLeaveEvB = true) ∧
      userU1 ∈ roomU1pull.users ∧
      userU1.playStream = some { sid := 0, tracks := [] }) ∧
    (WFRoom nfcId (steps nfcId roomU1pull [Ev.trackE 0 .video 5]) ∧
      ∀ u' ∈ (steps nfcId roomU1pull [Ev.trackE 0 .video 5]).users,
        u'.userId = userU1.userId →
        ∃ ps', u'.playStream = some ps' ∧
          ps'.sid = ({ sid := 0, tracks := [] } : PlayStream).sid ∧
          ({ sid := 0, tracks := [] } : PlayStream).tracks.map Track.tid <+:
            ps'.tracks.map Track.tid) :=
  ⟨⟨by decide, by decide, by decide, by decide, by decide⟩,
    playStream_created_once_never_replaced nfcId roomU1pull [Ev.trackE 0 .video 5]
      userU1 { sid := 0, tracks := [] } (by decide) (by decide) (by decide)
      (by decide) (by decide)⟩

end WebrtcClient
